import Mathlib

/-!
Shallow embedding of the cconfig single-header configuration-file library
(lexer, recursive-descent TOML-like parser, document object model, path
resolver, typed accessors, serializer, and the INI line parser), together
with theorems settling the specification claims about it.

Conventions of the embedding:
* C strings are `List Char`; reading at an index past the end yields the
  NUL terminator, modelled by `chAt` returning the NUL character.
* Machine integers: `int64_t` values produced by `strtoll` and `long`
  values produced by `strtol` are `Int` clamped to the two-complement
  range on overflow, mirroring the saturation behaviour of those libc
  routines.
* `double` values are idealised as `Rat`; the spec exempts floats from
  every observable property, so only the data flow is modelled, not IEEE
  rounding.  The libc conversions `strtod` and `printf %g` are modelled
  by `strtodM` (exact decimal reading) and `fmtG` (a deterministic
  rendering standing in for %g).
* Loops whose termination in C relies on forward progress through the
  input are given an explicit fuel argument; top-level wrappers pass a
  fuel that always suffices (input length based).  Running out of fuel is
  mapped to the out-of-memory failure path of the C code (an
  allocation-failure style abort of the parse).
-/

/-- The NUL terminator of C strings. -/
def nulChar : Char := Char.ofNat 0

/-- Read character `i` of a C string; past the end this reads the NUL
terminator, as the C code does. -/
def chAt (l : List Char) (i : Nat) : Char := l.getD i nulChar

/-- C `isdigit` restricted to ASCII input. -/
def isDigitC (c : Char) : Bool := 48 ≤ c.toNat && c.toNat ≤ 57

/-- C `isalpha` restricted to ASCII input. -/
def isAlphaC (c : Char) : Bool :=
  (65 ≤ c.toNat && c.toNat ≤ 90) || (97 ≤ c.toNat && c.toNat ≤ 122)

/-- C `isalnum` restricted to ASCII input. -/
def isAlnumC (c : Char) : Bool := isAlphaC c || isDigitC c

/-- The whitespace skipped by the lexer: space, carriage return, tab
(`skip_whitespace`). -/
def isLexWS (c : Char) : Bool := c == ' ' || c == '\r' || c == '\t'

/-- C `isspace` (space, tab, newline, vertical tab, form feed, carriage
return), as used by the INI parser trimming. -/
def isSpaceC (c : Char) : Bool :=
  c == ' ' || c == '\t' || c == '\n' || c.toNat == 11 || c.toNat == 12 || c == '\r'

/-- Decimal value of a digit string (most significant first). -/
def natOfDigits (l : List Char) : Nat :=
  l.foldl (fun a c => a * 10 + (c.toNat - 48)) 0

/-- Decimal rendering of an `Int`, as printf `%lld` produces. -/
def intRepr (i : Int) : String :=
  if i < 0 then "-" ++ Nat.repr i.natAbs else Nat.repr i.natAbs

/-- Clamp an integer into the two-complement range of a 64-bit signed
integer, the saturation `strtoll`/`strtol` perform on overflow. -/
def clampI64 (i : Int) : Int :=
  if i < -(2 ^ 63) then -(2 ^ 63) else if i > 2 ^ 63 - 1 then 2 ^ 63 - 1 else i

/-- `strtoll(text, NULL, 10)` on a token text: optional whitespace, an
optional sign, then decimal digits; no digits yields 0. -/
def strtollM (s : String) : Int :=
  let l := s.data.dropWhile isSpaceC
  let (sgn, l) : Int × List Char :=
    match l with
    | '-' :: r => (-1, r)
    | '+' :: r => (1, r)
    | _ => (1, l)
  clampI64 (sgn * (natOfDigits (l.takeWhile isDigitC) : Int))

/-- `strtol(p, &end, 10)` for the path resolver: skips `isspace`
whitespace and an optional sign, then requires at least one digit;
returns the clamped value and the unconsumed remainder, or `none` when
no digits were consumed (the `p == end` check in the caller). -/
def strtolM (p : List Char) : Option Int × List Char :=
  let l := p.dropWhile isSpaceC
  let neg : Bool := chAt l 0 == '-'
  let l1 := if neg || (chAt l 0 == '+') then l.drop 1 else l
  let ds := l1.takeWhile isDigitC
  if ds.isEmpty then (none, p)
  else
    let v : Int := if neg then -(natOfDigits ds : Int) else (natOfDigits ds : Int)
    (some (clampI64 v), l1.dropWhile isDigitC)

/-- `strtod` on a float token text, idealised over `Rat`: sign, integer
digits, optional fraction, optional exponent.  A trailing incomplete
exponent is ignored, matching the longest-valid-prefix rule of strtod. -/
def strtodM (s : String) : Rat :=
  let l := s.data.dropWhile isSpaceC
  let (sgn, l) : Rat × List Char :=
    match l with
    | '-' :: r => (-1, r)
    | '+' :: r => (1, r)
    | _ => (1, l)
  let ip := l.takeWhile isDigitC
  let l := l.dropWhile isDigitC
  let (fp, l) : List Char × List Char :=
    match l with
    | '.' :: r => (r.takeWhile isDigitC, r.dropWhile isDigitC)
    | _ => ([], l)
  let ex : Int :=
    match l with
    | 'e' :: r | 'E' :: r =>
      match r with
      | '-' :: r2 => -(natOfDigits (r2.takeWhile isDigitC) : Int)
      | '+' :: r2 => (natOfDigits (r2.takeWhile isDigitC) : Int)
      | _ => (natOfDigits (r.takeWhile isDigitC) : Int)
    | _ => 0
  let mant : Rat := (natOfDigits ip : Rat) + (natOfDigits fp : Rat) / ((10 : Rat) ^ fp.length)
  let pow : Rat := if ex < 0 then 1 / ((10 : Rat) ^ ex.natAbs) else (10 : Rat) ^ ex.natAbs
  sgn * mant * pow

/-- Stand-in for printf `%g` float formatting (deterministic; no claim
observes float serialization, which the spec exempts from round trips). -/
def fmtG (q : Rat) : String :=
  intRepr q.num ++ (if q.den == 1 then "" else "/" ++ Nat.repr q.den)

-- ## The document object model (`cconfig_value_t` and friends)

/-- The tagged value union `cconfig_value_t`.  A table owns an ordered
list of key/value pairs (`cconfig_table_t`), an array an ordered list of
values (`cconfig_array_t`).  The datetime payload mirrors
`cconfig_datetime_t` (its time/zone fields are irrelevant to every claim
and collapsed to the date triple). -/
inductive Value where
  | vNone : Value
  | vStr (s : String) : Value
  | vInt (i : Int) : Value
  | vFloat (q : Rat) : Value
  | vBool (b : Bool) : Value
  | vDT (y m d : Int) : Value
  | vArr (es : List Value) : Value
  | vTable (ps : List (String × Value)) : Value

/-- The pair list of a `cconfig_table_t`. -/
abbrev Pairs := List (String × Value)

-- ## Lexer (`next_token` and helpers)

/-- Token types (`cconfig_token_type_t`). -/
inductive TokTy where
  | eof | error | ident | string | integer | float | boolean | datetime
  | equal | lbracket | rbracket | lbrace | rbrace | comma | dot | newline
  | comment
  deriving DecidableEq

/-- A token (`cconfig_token_t`); `text` is the input slice `start..len`
(for error tokens, the message). -/
structure Tok where
  ty : TokTy
  text : String
  line : Nat
  col : Nat
  deriving DecidableEq

/-- Lexer state (`cconfig_lexer_t`): the unread input and the 1-based
line/column counters. -/
structure LexSt where
  rem : List Char
  line : Nat
  col : Nat

/-- `skip_whitespace`: consume spaces, carriage returns and tabs,
advancing the column per character. -/
def skipWS : List Char → Nat → List Char × Nat
  | c :: cs, col => if isLexWS c then skipWS cs (col + 1) else (c :: cs, col)
  | [], col => ([], col)

/-- Consume a maximal run of characters satisfying `p`, counting
columns; returns (consumed, rest, column). -/
def lexRun (p : Char → Bool) : List Char → Nat → List Char × List Char × Nat
  | c :: cs, col =>
    if p c then
      let (tk, rest, col2) := lexRun p cs (col + 1)
      (c :: tk, rest, col2)
    else ([], c :: cs, col)
  | [], col => ([], [], col)

/-- Result of the string-scanning loop of `string_token`. -/
inductive StrRes where
  | ok (consumed : List Char) (rem : List Char) (line col : Nat)
  | err (msg : String) (line col : Nat)

/-- Prepend consumed characters to a successful string scan. -/
def StrRes.push (c : Char) : StrRes → StrRes
  | .ok consumed rem line col => .ok (c :: consumed) rem line col
  | .err m l co => .err m l co

/-- The scanning loop of `string_token`, after the opening delimiter(s)
have been consumed: stops at the closing delimiter, errors on end of
input or (for single-line strings) on a raw newline, counts lines inside
multi-line strings, and skips the character following a backslash inside
double-quoted strings. -/
def strLoop (q : Char) (ml : Bool) : List Char → Nat → Nat → StrRes
  | [], line, col => .err "Unterminated string." line col
  | c :: cs, line, col =>
    if c = q then
      if ml then
        if chAt cs 0 = q ∧ chAt cs 1 = q then
          .ok (c :: cs.take 2) (cs.drop 2) line (col + 3)
        else
          (strLoop q ml cs line (col + 1)).push c
      else .ok [c] cs line (col + 1)
    else if c = '\n' ∧ ¬ml then
      .err "Unterminated string (newline in single-line string)." line col
    else if c = '\n' then
      (strLoop q ml cs (line + 1) 1).push c
    else if q = '"' ∧ c = '\\' then
      match cs with
      | [] => ((strLoop q ml [] line (col + 1)).push c)
      | d :: ds => (((strLoop q ml ds line (col + 2)).push d).push c)
    else (strLoop q ml cs line (col + 1)).push c

/-- `string_token`, entered after the opening quote was consumed.
Detects the multi-line `"""`/`'''` form, runs the scan loop, and builds
either the string token (positioned, like the C code, at the line/column
after the closing delimiter) or an error token. -/
def string_token (q : Char) (rem : List Char) (line col : Nat) : Tok × LexSt :=
  let ml := chAt rem 0 = q ∧ chAt rem 1 = q
  let (openTail, rem0, col0) : List Char × List Char × Nat :=
    if ml then ([q, q], rem.drop 2, col + 2) else ([], rem, col)
  match strLoop q ml rem0 line col0 with
  | .err msg eline ecol =>
    (⟨.error, msg, eline, ecol⟩, ⟨rem0, eline, ecol⟩)
  | .ok consumed rem2 line2 col2 =>
    (⟨.string, ⟨q :: (openTail ++ consumed)⟩, line2, col2⟩, ⟨rem2, line2, col2⟩)

/-- `identifier_token`, entered after its first character `c` was
consumed: extends over alphanumerics, underscore and dash, and
reclassifies the keywords `true`/`false` as boolean tokens.  As in the C
code, the token column is the column after the identifier. -/
def identifier_token (c : Char) (cs : List Char) (line col : Nat) : Tok × LexSt :=
  let (tk, rest, col2) := lexRun (fun d => isAlnumC d || d == '_' || d == '-') cs col
  let text : String := ⟨c :: tk⟩
  let ty : TokTy := if text = "true" || text = "false" then .boolean else .ident
  (⟨ty, text, line, col2⟩, ⟨rest, line, col2⟩)

/-- The date heuristic of `next_token` applied to a number start: first
character a digit, the following three characters present (non-NUL),
then a dash, two digits, a dash and two digits.  Note that characters
two to four are only required to be present, not to be digits. -/
def dtHeur (c : Char) (cs : List Char) : Bool :=
  isDigitC c && !(chAt cs 0 = nulChar) && !(chAt cs 1 = nulChar) &&
  !(chAt cs 2 = nulChar) && (chAt cs 3 = '-') && isDigitC (chAt cs 4) &&
  isDigitC (chAt cs 5) && (chAt cs 6 = '-') && isDigitC (chAt cs 7) &&
  isDigitC (chAt cs 8)

/-- The number branch of `next_token`, entered after its first character
`c` (a digit or sign) was consumed at starting column `scol`.  Tries the
date heuristic first (consuming ten characters without touching the
column counter, as the C code sets `pos` directly); otherwise consumes
digits, an optional fraction and an optional exponent, promoting the
token to a float when a fraction or exponent is present. -/
def number_token (c : Char) (cs : List Char) (line col scol : Nat) : Tok × LexSt :=
  if dtHeur c cs then
    (⟨.datetime, ⟨c :: cs.take 9⟩, line, scol⟩, ⟨cs.drop 9, line, col⟩)
  else
    let rn := lexRun isDigitC cs col
    let hasF : Bool := chAt rn.2.1 0 == '.'
    let fr := lexRun isDigitC (rn.2.1.drop 1) (rn.2.2 + 1)
    let f2 : List Char := if hasF then '.' :: fr.1 else []
    let r2 : List Char := if hasF then fr.2.1 else rn.2.1
    let col2 : Nat := if hasF then fr.2.2 else rn.2.2
    let e0 := chAt r2 0
    let hasE : Bool := e0 == 'e' || e0 == 'E'
    let s0 := chAt (r2.drop 1) 0
    let hasS : Bool := s0 == '+' || s0 == '-'
    let er := if hasS then lexRun isDigitC (r2.drop 2) (col2 + 2)
              else lexRun isDigitC (r2.drop 1) (col2 + 1)
    let f3 : List Char := if hasE then (if hasS then e0 :: s0 :: er.1 else e0 :: er.1) else []
    let r3 : List Char := if hasE then er.2.1 else r2
    let col3 : Nat := if hasE then er.2.2 else col2
    let ty : TokTy := if hasF || hasE then .float else .integer
    (⟨ty, ⟨c :: (rn.1 ++ f2 ++ f3)⟩, line, scol⟩, ⟨r3, line, col3⟩)

/-- `next_token`: skip whitespace, then classify the next character.
Returns the token and the updated lexer state. -/
def next_token (st : LexSt) : Tok × LexSt :=
  let (rem, col) := skipWS st.rem st.col
  match rem with
  | [] => (⟨.eof, "", st.line, col⟩, ⟨[], st.line, col⟩)
  | c :: cs =>
    let col1 := col + 1
    if isAlphaC c || c == '_' then identifier_token c cs st.line col1
    else if isDigitC c || c == '-' || c == '+' then
      number_token c cs st.line col1 col
    else
      match c with
      | '=' => (⟨.equal, "=", st.line, col⟩, ⟨cs, st.line, col1⟩)
      | '[' => (⟨.lbracket, "[", st.line, col⟩, ⟨cs, st.line, col1⟩)
      | ']' => (⟨.rbracket, "]", st.line, col⟩, ⟨cs, st.line, col1⟩)
      | '{' => (⟨.lbrace, "\x7b", st.line, col⟩, ⟨cs, st.line, col1⟩)
      | '}' => (⟨.rbrace, "\x7d", st.line, col⟩, ⟨cs, st.line, col1⟩)
      | ',' => (⟨.comma, ",", st.line, col⟩, ⟨cs, st.line, col1⟩)
      | '.' => (⟨.dot, ".", st.line, col⟩, ⟨cs, st.line, col1⟩)
      | '\n' => (⟨.newline, "\n", st.line, col⟩, ⟨cs, st.line + 1, 1⟩)
      | '"' => string_token '"' cs st.line col1
      | '\'' => string_token '\'' cs st.line col1
      | '#' =>
        let (tk, rest, col2) := lexRun (fun d => !(d == '\n')) cs col1
        (⟨.comment, ⟨'#' :: tk⟩, st.line, col⟩, ⟨rest, st.line, col2⟩)
      | _ => (⟨.error, "Unexpected character.", st.line, col1⟩, ⟨cs, st.line, col1⟩)

/-- Run the lexer to completion, producing the token stream the parser
consumes (the terminating EOF token included).  The fuel is an upper
bound on the number of tokens; every non-EOF token consumes at least one
character, so the wrapper passes `input length + 1`. -/
def tokenize : Nat → LexSt → List Tok
  | 0, _ => []
  | fuel + 1, st =>
    let (t, st2) := next_token st
    if t.ty = .eof then [t] else t :: tokenize fuel st2

/-- Lex a whole input string starting at line 1, column 1. -/
def tokenizeStr (s : String) : List Tok :=
  tokenize (s.data.length + 1) ⟨s.data, 1, 1⟩


-- ## Parser state (`cconfig_parser_t`)

/-- One invocation of `parser_error`: the position of the token
preceding the failure (the parser attributes errors to `previous`) and
the message. -/
structure ErrEntry where
  line : Nat
  col : Nat
  msg : String
  deriving DecidableEq

/-- The message `parser_error` formats into the error buffer:
`Error at line L, col C: <message>`. -/
def fmtE (e : ErrEntry) : String :=
  "Error at line " ++ Nat.repr e.line ++ ", col " ++ Nat.repr e.col ++ ": " ++ e.msg

/-- A step of a pointer path into the document tree: pair `i` of a
table, or element `i` of an array.  Paths stand in for the C pointers
into the tree (`current_table` and the cursors of the create/find
helpers); indices are stable because insertion only ever appends. -/
inductive Step where
  | fld (i : Nat)
  | idx (i : Nat)
  deriving DecidableEq

/-- A pointer path into the document tree. -/
abbrev VPath := List Step

/-- Parser state (`cconfig_parser_t` plus the document under
construction).  The token stream is pre-lexed: `cur`/`prev` mirror
`current`/`previous`, `rest` is what `next_token` will deliver.
`panic_mode` and the error buffer are represented by `errs`, the list of
`parser_error` invocations in order: the C flag is its nonemptiness
(`pmodeOf`) and the buffer content is derived from its first entry
(`errBufOf`), which is exactly the write-once/first-error-wins behaviour
of the C code.  `cap` is the caller's error-buffer size (0 when no
buffer was provided). -/
structure PSt where
  rest : List Tok
  cur : Tok
  prev : Tok
  cap : Nat
  errs : List ErrEntry
  root : Pairs
  curT : VPath

/-- The `panic_mode` flag: set iff some error has been reported. -/
def pmodeOf (st : PSt) : Bool := !st.errs.isEmpty

/-- Content of the caller's error buffer after a parse: untouched
(`none`) when no error occurred or no buffer was given, else the first
error formatted and truncated to the buffer capacity (snprintf writes at
most `cap - 1` characters plus the terminator). -/
def errBufOf (cap : Nat) (errs : List ErrEntry) : Option String :=
  if cap = 0 then none else errs.head?.map (fun e => (⟨(fmtE e).data.take (cap - 1)⟩ : String))

/-- `parser_error`: record the error at the position of the previous
token.  In C this writes the buffer and sets `panic_mode` only when
`panic_mode` was clear; with the derived representation this is exactly
appending the invocation to `errs`. -/
def parser_error (st : PSt) (msg : String) : PSt :=
  { st with errs := st.errs ++ [⟨st.prev.line, st.prev.col, msg⟩] }

/-- The zero-initialised `current`/`previous` tokens of a fresh parser
(designated initialisers zero-fill the rest of the struct in C). -/
def initTok : Tok := ⟨.eof, "", 0, 0⟩

/-- Pop the next token into `current`, moving `current` to `previous`.
Past the end of the stream the lexer keeps returning EOF at its final
position. -/
def popTok (st : PSt) : PSt :=
  match st.rest with
  | t :: ts => { st with prev := st.cur, cur := t, rest := ts }
  | [] => { st with prev := st.cur, cur := ⟨.eof, "", st.cur.line, st.cur.col⟩ }

/-- Pop without touching `previous` (the error-token skipping loop of
`advance_token` assigns only `current`). -/
def popTokKeep (st : PSt) : PSt :=
  match st.rest with
  | t :: ts => { st with cur := t, rest := ts }
  | [] => { st with cur := ⟨.eof, "", st.cur.line, st.cur.col⟩ }

/-- The error-token skipping loop of `advance_token`: report each error
token (the message is the token text) and keep fetching. -/
def skipErrsF : Nat → PSt → PSt
  | 0, st => st
  | fuel + 1, st =>
    if st.cur.ty = .error then
      skipErrsF fuel (popTokKeep (parser_error st st.cur.text))
    else st

/-- `advance_token`. -/
def advTok (st : PSt) : PSt :=
  let st2 := popTok st
  skipErrsF (st2.rest.length + 2) st2

/-- `consume_token`: advance over the expected token type, else report
`msg` (when given) and fail. -/
def consumeTok (st : PSt) (ty : TokTy) (msg : Option String) : Bool × PSt :=
  if st.cur.ty = ty then (true, advTok st)
  else
    match msg with
    | some m => (false, parser_error st m)
    | none => (false, st)

-- ## Navigation of the document tree

/-- Replace element `i` of a list by `f` of it. -/
def modNth (f : α → α) : Nat → List α → List α
  | _, [] => []
  | 0, a :: l => f a :: l
  | n + 1, a :: l => a :: modNth f n l

/-- Dereference a pointer path. -/
def getAtV : Value → VPath → Option Value
  | v, [] => some v
  | .vTable ps, .fld i :: p =>
    match ps.get? i with
    | some pr => getAtV pr.2 p
    | none => none
  | .vArr es, .idx i :: p =>
    match es.get? i with
    | some v => getAtV v p
    | none => none
  | _, _ :: _ => none

/-- Update the value a pointer path points at (identity on dangling
paths, which never arise: the parser only forms paths to live nodes). -/
def modAtV : Value → VPath → (Value → Value) → Value
  | v, [], f => f v
  | .vTable ps, .fld i :: p, f => .vTable (modNth (fun pr => (pr.1, modAtV pr.2 p f)) i ps)
  | .vArr es, .idx i :: p, f => .vArr (modNth (fun v => modAtV v p f) i es)
  | v, _ :: _, _ => v

/-- The table a path points at inside the document root. -/
def getTblAt (root : Pairs) (p : VPath) : Option Pairs :=
  match getAtV (.vTable root) p with
  | some (.vTable ps) => some ps
  | _ => none

/-- Apply an update through a path inside the document root. -/
def modRoot (root : Pairs) (p : VPath) (f : Value → Value) : Pairs :=
  match modAtV (.vTable root) p f with
  | .vTable ps => ps
  | _ => root

/-- `cconfig_table_add_pair`: append, never checking for duplicates. -/
def cconfig_table_add_pair (ps : Pairs) (pr : String × Value) : Pairs := ps ++ [pr]

/-- `cconfig_array_add_value`: append. -/
def cconfig_array_add_value (es : List Value) (v : Value) : List Value := es ++ [v]

/-- Append a key/value pair to the table a path points at. -/
def appendPairAt (root : Pairs) (p : VPath) (k : String) (v : Value) : Pairs :=
  modRoot root p (fun w =>
    match w with
    | .vTable ps => .vTable (cconfig_table_add_pair ps (k, v))
    | w0 => w0)

/-- First pair with the given key, with its index (the find loops of
`find_or_create_table` and friends compare full key equality). -/
def findPairIdx : Pairs → String → Option (Nat × Value)
  | [], _ => none
  | pr :: ps, key =>
    if pr.1 = key then some (0, pr.2)
    else (findPairIdx ps key).map (fun q => (q.1 + 1, q.2))

/-- `find_or_create_table`: return the path of the first pair with this
key if it is a table, fail if it exists with another type, else append a
fresh empty table pair and return its path. -/
def find_or_create_table (root : Pairs) (parentP : VPath) (key : String) :
    Pairs × Option VPath :=
  match getTblAt root parentP with
  | none => (root, none)
  | some ps =>
    match findPairIdx ps key with
    | some (i, .vTable _) => (root, some (parentP ++ [.fld i]))
    | some (_, _) => (root, none)
    | none =>
      (modRoot root parentP (fun w =>
        match w with
        | .vTable ps2 => .vTable (cconfig_table_add_pair ps2 (key, .vTable []))
        | w0 => w0),
       some (parentP ++ [.fld ps.length]))

/-- `find_or_create_array_of_tables`: return the path of the first pair
with this key if it is an array, report a redefinition error if it has
another type, else append a fresh empty array pair. -/
def find_or_create_array_of_tables (st : PSt) (parentP : VPath) (key : String) :
    PSt × Option VPath :=
  match getTblAt st.root parentP with
  | none => (st, none)
  | some ps =>
    match findPairIdx ps key with
    | some (i, .vArr _) => (st, some (parentP ++ [.fld i]))
    | some (_, _) => (parser_error st "Key redefined as an array of tables.", none)
    | none =>
      ({ st with root := modRoot st.root parentP (fun w =>
          match w with
          | .vTable ps2 => .vTable (cconfig_table_add_pair ps2 (key, .vArr []))
          | w0 => w0) },
       some (parentP ++ [.fld ps.length]))

-- ## `parse_value` and `parse_key_value`

/-- The character-processing loop of `process_string_literal` for basic
(double-quoted) strings: `i` indexes into the full token slice `s`, `n`
is the number of content positions left.  An escape consumes two
positions. -/
def procEsc (s : List Char) : Nat → Nat → List Char
  | _, 0 => []
  | i, n + 1 =>
    let c := chAt s i
    if c = '\n' then '\n' :: procEsc s (i + 1) n
    else if c = '\\' then
      let d := chAt s (i + 1)
      let out : List Char :=
        if d = 'b' then ['\x08']
        else if d = 't' then ['\t']
        else if d = 'n' then ['\n']
        else if d = 'f' then ['\x0c']
        else if d = 'r' then ['\x0d']
        else if d = '"' then ['"']
        else if d = '\\' then ['\\']
        else ['\\', d]
      out ++ procEsc s (i + 2) (n - 1)
    else c :: procEsc s (i + 1) n

/-- `process_string_literal`: strip the delimiters (three of them in
multi-line form) and, for basic strings, decode escapes. -/
def process_string_literal (l : List Char) : String :=
  let q := chAt l 0
  let len := l.length
  let ml := decide (len > 5) && (chAt l 1 == q) && (chAt l 2 == q)
  let cs := if ml then 3 else 1
  let ce := len - (if ml then 3 else 1)
  if q = '\'' then ⟨(l.drop cs).take (ce - cs)⟩
  else ⟨procEsc l cs (ce - cs)⟩

/-- Message used both for a comma directly before `]` and for a missing
closing bracket. -/
def arrCloseMsg : String := "Expected \x27]\x27 to close array."

/-- Message for a missing array separator. -/
def arrSepMsg : String := "Expected \x27,\x27 or \x27]\x27 in array."

/-- Outcome of the after-element section of the array loop. -/
inductive ArrStep where
  | closed | failed | next
  deriving DecidableEq

/-- Fuelled comment/newline skipping inside the array loop. -/
def skipCNF : Nat → PSt → PSt
  | 0, st => st
  | fuel + 1, st =>
    if st.cur.ty = .comment ∨ st.cur.ty = .newline then skipCNF fuel (advTok st)
    else st

/-- The comment/newline skip of the array loop (the fuel always
suffices: each step consumes a token). -/
def skipCN (st : PSt) : PSt := skipCNF (st.rest.length + 2) st

/-- The part of the array loop of `parse_value` that runs after an
element was parsed and appended: break on `]` (the caller then consumes
it); otherwise require a comma, skip comments/newlines, and reject a `]`
directly after the comma with the `Expected \x27]\x27 to close array.`
error. -/
def array_after_elem (st : PSt) : ArrStep × PSt :=
  if st.cur.ty = .rbracket then (.closed, st)
  else
    match consumeTok st .comma (some arrSepMsg) with
    | (false, st2) => (.failed, st2)
    | (true, st2) =>
      let st3 := skipCN st2
      if st3.cur.ty = .rbracket then (.failed, parser_error st3 arrCloseMsg)
      else (.next, st3)

/-- `parse_value` together with its array-element loop, combined into
one fuelled function (`inArr = false`: `parse_value` proper on the
current token; `inArr = true`: the element loop with accumulator `acc`).
Fuel exhaustion takes the allocation-failure path of the C code. -/
def parse_value_f : Nat → Bool → List Value → PSt → Option Value × PSt
  | 0, _, _, st => (none, parser_error st "Out of memory.")
  | fuel + 1, false, _, st =>
    match st.cur.ty with
    | .string => (some (.vStr (process_string_literal st.cur.text.data)), advTok st)
    | .integer => (some (.vInt (strtollM st.cur.text)), advTok st)
    | .float => (some (.vFloat (strtodM st.cur.text)), advTok st)
    | .boolean => (some (.vBool (st.cur.text == "true")), advTok st)
    | .lbracket =>
      let st2 := advTok st
      if st2.cur.ty = .rbracket then (some (.vArr []), advTok st2)
      else parse_value_f fuel true [] st2
    | _ => (none, st)
  | fuel + 1, true, acc, st =>
    if st.cur.ty = .rbracket ∨ st.cur.ty = .eof then
      match consumeTok st .rbracket (some arrCloseMsg) with
      | (true, st2) => (some (.vArr acc), st2)
      | (false, st2) => (none, st2)
    else
      match parse_value_f fuel false [] st with
      | (none, st2) => (none, st2)
      | (some e, st2) =>
        match array_after_elem st2 with
        | (.closed, st3) => (some (.vArr (cconfig_array_add_value acc e)), advTok st3)
        | (.failed, st3) => (none, st3)
        | (.next, st3) => parse_value_f fuel true (cconfig_array_add_value acc e) st3

/-- `parse_value` on the current token. -/
def parse_value (fuel : Nat) (st : PSt) : Option Value × PSt :=
  parse_value_f fuel false [] st

/-- `parse_key_value`: walk the dotted key path (find-or-create through
the local table cursor `tp`, which starts at the current table), and on
`=` parse the value and append the pair to the resolved table.  Returns
`some ()` exactly when a pair was added. -/
def parse_key_value_f : Nat → VPath → PSt → Option Unit × PSt
  | 0, _, st => (none, parser_error st "Out of memory.")
  | fuel + 1, tp, st =>
    if st.cur.ty = .ident then
      let keyTok := st.cur
      let st2 := advTok st
      if st2.cur.ty = .dot then
        match find_or_create_table st2.root tp keyTok.text with
        | (root2, none) =>
          (none, parser_error { st2 with root := root2 } "Failed to create table for dotted key.")
        | (root2, some tp2) => parse_key_value_f fuel tp2 (advTok { st2 with root := root2 })
      else if st2.cur.ty = .equal then
        let st3 := advTok st2
        match parse_value fuel st3 with
        | (none, st4) => (none, st4)
        | (some v, st4) =>
          (some (), { st4 with root := appendPairAt st4.root tp keyTok.text v })
      else parse_key_value_f fuel tp st2
    else (none, st)

-- ## Top-level parse loop (`cconfig_parse`)

/-- Closing message of table-array headers. -/
def aotCloseMsg : String := "Expected \x27]]\x27 to close array of tables."

/-- The dotted-path walk of a standard `[a.b.c]` table header: find or
create each segment from the document root, failing when a segment
exists with a non-table type. -/
def table_header_loop : Nat → VPath → PSt → Option VPath × PSt
  | 0, _, st => (none, parser_error st "Out of memory.")
  | fuel + 1, tp, st =>
    if st.cur.ty = .ident then
      match find_or_create_table st.root tp st.cur.text with
      | (root2, none) => (none, parser_error { st with root := root2 } "Failed to create or find table.")
      | (root2, some tp2) =>
        let st2 := advTok { st with root := root2 }
        if st2.cur.ty = .dot then table_header_loop fuel tp2 (advTok st2)
        else (some tp2, st2)
    else (some tp, st)

/-- The dotted-path walk of an `[[a.b.c]]` array-of-tables header:
intermediate segments find-or-create tables, the final segment resolves
or creates the target array (`some none`: the walk ended without a
target, `none`: hard failure). -/
def aot_header_loop : Nat → VPath → PSt → Option (Option VPath) × PSt
  | 0, _, st => (none, parser_error st "Out of memory.")
  | fuel + 1, parentP, st =>
    if st.cur.ty = .ident then
      let key := st.cur.text
      let st2 := advTok st
      if st2.cur.ty = .dot then
        match find_or_create_table st2.root parentP key with
        | (root2, none) =>
          (none, parser_error { st2 with root := root2 } "Failed to create table path.")
        | (root2, some p2) => aot_header_loop fuel p2 (advTok { st2 with root := root2 })
      else
        match find_or_create_array_of_tables st2 parentP key with
        | (st3, oA) => (some oA, st3)
    else (some none, st)

/-- Append a fresh empty table to the target array of an `[[...]]`
header, returning its element index. -/
def append_table_elem (root : Pairs) (ap : VPath) : Pairs × Nat :=
  match getAtV (.vTable root) ap with
  | some (.vArr es) =>
    (modRoot root ap (fun w =>
      match w with
      | .vArr es2 => .vArr (cconfig_array_add_value es2 (.vTable []))
      | w0 => w0), es.length)
  | _ => (root, 0)

/-- The statement loop of `cconfig_parse`: skip newlines/comments,
dispatch table headers and key-value statements, report syntax errors
with forward progress.  `some ()` means the loop reached end-of-input
(the caller still checks `panic_mode`); `none` mirrors the early
`return NULL` paths. -/
def parse_loop : Nat → PSt → Option Unit × PSt
  | 0, st => (none, parser_error st "Out of memory.")
  | fuel + 1, st =>
    if st.cur.ty = .eof then (some (), st)
    else if st.cur.ty = .newline ∨ st.cur.ty = .comment then parse_loop fuel (advTok st)
    else if st.cur.ty = .lbracket then
      let st2 := advTok st
      match consumeTok st2 .lbracket none with
      | (true, st3) =>
        match aot_header_loop fuel [] st3 with
        | (none, st4) => (none, st4)
        | (some none, st4) => (none, parser_error st4 "Invalid array of tables declaration.")
        | (some (some ap), st4) =>
          let rn := append_table_elem st4.root ap
          let st5 := { st4 with root := rn.1, curT := ap ++ [.idx rn.2] }
          match consumeTok st5 .rbracket (some aotCloseMsg) with
          | (false, st6) => (none, st6)
          | (true, st6) =>
            match consumeTok st6 .rbracket (some aotCloseMsg) with
            | (false, st7) => (none, st7)
            | (true, st7) => parse_loop fuel st7
      | (false, st3) =>
        match table_header_loop fuel [] st3 with
        | (none, st4) => (none, st4)
        | (some tp, st4) =>
          let st5 := { st4 with curT := tp }
          match consumeTok st5 .rbracket (some "Expected \x27]\x27 after table name.") with
          | (false, st6) => (none, st6)
          | (true, st6) => parse_loop fuel st6
    else
      match parse_key_value_f fuel st.curT st with
      | (some _, st2) =>
        if st2.cur.ty ≠ .newline ∧ st2.cur.ty ≠ .eof ∧ st2.cur.ty ≠ .comment then
          parse_loop fuel (advTok (parser_error st2 "Unexpected token after key-value pair."))
        else parse_loop fuel st2
      | (none, st2) =>
        parse_loop fuel
          (advTok (parser_error st2 "Invalid syntax. Expected key-value pair or table definition."))

/-- `cconfig_parse`, returning both the result (the root table of the
document, `none` on failure) and the final parser state (whose derived
`errBufOf` is the caller-visible error buffer). -/
def cconfig_parse_full (input : String) (cap : Nat) : Option Pairs × PSt :=
  let toks := tokenizeStr input
  let st0 : PSt := ⟨toks, initTok, initTok, cap, [], [], []⟩
  let st1 := advTok st0
  match parse_loop (toks.length + 2) st1 with
  | (none, st2) => (none, st2)
  | (some _, st2) => if pmodeOf st2 then (none, st2) else (some st2.root, st2)

/-- The document returned by `cconfig_parse` (`none` is the NULL
failure result). -/
def cconfig_parse (input : String) (cap : Nat) : Option Pairs :=
  (cconfig_parse_full input cap).1

-- ## Path resolver (`cconfig_get_value`) and typed accessors

/-- `cconfig_get_value_from_table`: the first pair whose key compares
equal (insertion order), or `none`. -/
def cconfig_get_value_from_table : Pairs → String → Option Value
  | [], _ => none
  | pr :: rest, key =>
    if pr.1 = key then some pr.2 else cconfig_get_value_from_table rest key

/-- Skip a `.` separator after a path segment. -/
def dotSkip : List Char → List Char
  | '.' :: r => r
  | l => l

/-- A path character that ends a key segment (what `strpbrk(p, ".[")`
searches for). -/
def isSegEnd (c : Char) : Bool := c == '.' || c == '['

/-- The resolution loop of `cconfig_get_value`: `[i]` segments index
arrays (malformed or out-of-range indices fail), other segments are key
lookups in tables through a fixed 256-byte key buffer (longer segments
fail regardless of the table contents).  The fuel covers the loop
progress; the wrapper passes `path length + 1`, enough for every path
the loop traverses. -/
def resolve_loop : Nat → Option Value → List Char → Option Value
  | 0, _, _ => none
  | _ + 1, cur, [] => cur
  | _ + 1, none, _ :: _ => none
  | fuel + 1, some v, c :: pt =>
    if c = '[' then
      (match v with
       | .vArr es =>
         (match strtolM pt with
          | (none, _) => none
          | (some idx, rest1) =>
            if chAt rest1 0 = ']' then
              if idx < 0 ∨ (es.length : Int) ≤ idx then none
              else resolve_loop fuel (es.get? idx.toNat) (dotSkip (rest1.drop 1))
            else none)
       | _ => none)
    else
      (match v with
       | .vTable ps =>
         let seg := (c :: pt).takeWhile (fun d => !isSegEnd d)
         let rest := (c :: pt).dropWhile (fun d => !isSegEnd d)
         if 256 ≤ seg.length then none
         else resolve_loop fuel (cconfig_get_value_from_table ps ⟨seg⟩) (dotSkip rest)
       | _ => none)

/-- `cconfig_get_value`: resolve a dotted/bracket path from an implicit
table view of the document root. -/
def cconfig_get_value (doc : Pairs) (path : String) : Option Value :=
  resolve_loop (path.data.length + 1) (some (.vTable doc)) path.data

/-- `cconfig_get_table`. -/
def cconfig_get_table (doc : Pairs) (path : String) : Option Pairs :=
  match cconfig_get_value doc path with
  | some (.vTable ps) => some ps
  | _ => none

/-- `cconfig_get_array`. -/
def cconfig_get_array (doc : Pairs) (path : String) : Option (List Value) :=
  match cconfig_get_value doc path with
  | some (.vArr es) => some es
  | _ => none

/-- `cconfig_get_string`: the string value, or the caller's default on
an unresolved path or any other variant. -/
def cconfig_get_string (doc : Pairs) (path : String) (dflt : String) : String :=
  match cconfig_get_value doc path with
  | some (.vStr s) => s
  | _ => dflt

/-- `cconfig_get_int`. -/
def cconfig_get_int (doc : Pairs) (path : String) (dflt : Int) : Int :=
  match cconfig_get_value doc path with
  | some (.vInt i) => i
  | _ => dflt

/-- `cconfig_get_double`: floats are returned directly, an integer match
is promoted to its double value, anything else yields the default. -/
def cconfig_get_double (doc : Pairs) (path : String) (dflt : Rat) : Rat :=
  match cconfig_get_value doc path with
  | some (.vFloat q) => q
  | some (.vInt i) => (i : Rat)
  | _ => dflt

/-- `cconfig_get_bool`. -/
def cconfig_get_bool (doc : Pairs) (path : String) (dflt : Bool) : Bool :=
  match cconfig_get_value doc path with
  | some (.vBool b) => b
  | _ => dflt

-- ## Serializer (`cconfig_serialize`)

/-- The string-escaping loop of `cconfig_serialize_value`: only `"` and
backslash are escaped; everything else passes through unchanged. -/
def serEsc : List Char → List Char
  | [] => []
  | c :: cs => (if c = '"' ∨ c = '\\' then ['\\', c] else [c]) ++ serEsc cs

mutual

/-- `cconfig_serialize_value`: scalars and inline arrays; tables (and
the None/Datetime variants of the default case) emit nothing here. -/
def cconfig_serialize_value : Value → String
  | .vStr s => "\"" ++ (⟨serEsc s.data⟩ : String) ++ "\""
  | .vInt i => intRepr i
  | .vFloat q => fmtG q
  | .vBool b => if b then "true" else "false"
  | .vArr es => "[ " ++ serElems es ++ " ]"
  | _ => ""

/-- Array elements joined by `, `. -/
def serElems : List Value → String
  | [] => ""
  | [v] => cconfig_serialize_value v
  | v :: vs => cconfig_serialize_value v ++ ", " ++ serElems vs

end

/-- The `new_path` computation of `cconfig_serialize_table_contents`:
`snprintf(new_path, 256, "%s%s%s", tp ? tp : "", tp ? "." : "", key)`.
A non-NULL prefix, the empty root prefix included, inserts a dot. -/
def serNewPath (tp : Option String) (k : String) : String :=
  ((match tp with | some s => s ++ "." | none => "") ++ k).take 255

/-- First pass of `cconfig_serialize_table_contents`: emit `key = value`
lines for every pair that is neither a table nor an array, writing a
`[prefix]` header before the first one when the prefix is non-NULL and
non-empty; returns the emitted text and the `wrote_header` flag. -/
def serSimples : Pairs → Option String → Bool → String × Bool
  | [], _, wh => ("", wh)
  | (k, v) :: rest, tp, wh =>
    match v with
    | .vTable _ => serSimples rest tp wh
    | .vArr _ => serSimples rest tp wh
    | _ =>
      let writeHdr : Bool := !wh && (match tp with | some s => !(s == "") | none => false)
      let hdr : String := if writeHdr then "[" ++ tp.getD "" ++ "]\n" else ""
      let sw := serSimples rest tp (wh || writeHdr)
      (hdr ++ k ++ " = " ++ cconfig_serialize_value v ++ "\n" ++ sw.1, sw.2)

mutual

/-- The body of the second loop of `cconfig_serialize_table_contents`
for one pair, given the already-extended path `np`: a table-valued pair
dumps the sub-table under `np`; an array whose first element is a table
dumps as an array of tables; anything else emits nothing here.  The
recursive occurrence of `cconfig_serialize_table_contents` is inlined
(simple pairs, blank line, second pass) so that the mutual recursion is
structural; the wrapper below restores the C shape, and
`cconfig_serialize_table_contents` is definitionally that inlined
body. -/
def serPairSub : Value → String → String
  | .vTable ps2, np =>
    (serSimples ps2 (some np) false).1 ++
    (if (serSimples ps2 (some np) false).2 then "\n" else "") ++
    serSubs ps2 (some np)
  | .vArr es, np =>
    (match es with
     | .vTable _ :: _ => serAoT es np
     | _ => "")
  | _, _ => ""

/-- Second pass of `cconfig_serialize_table_contents`: walk the pairs,
computing the extended `new_path` for each. -/
def serSubs : Pairs → Option String → String
  | [], _ => ""
  | (k, v) :: rest, tp => serPairSub v (serNewPath tp k) ++ serSubs rest tp

/-- The dump of one element of an array of tables: its contents with a
NULL path (non-table elements, which the C code would misinterpret
through the union, emit nothing). -/
def serAoTElem : Value → String
  | .vTable ps2 =>
    (serSimples ps2 none false).1 ++
    (if (serSimples ps2 none false).2 then "\n" else "") ++
    serSubs ps2 none
  | _ => ""

/-- One `[[path]]` header plus element dump plus blank line per element
of an array of tables. -/
def serAoT : List Value → String → String
  | [], _ => ""
  | v :: vs, np => "[[" ++ np ++ "]]\n" ++ serAoTElem v ++ "\n" ++ serAoT vs np

end

/-- `cconfig_serialize_table_contents`: simple pairs first (with a blank
line after them when a header was written), then sub-tables and arrays
of tables. -/
def cconfig_serialize_table_contents (ps : Pairs) (tp : Option String) : String :=
  (serSimples ps tp false).1 ++
  (if (serSimples ps tp false).2 then "\n" else "") ++ serSubs ps tp

/-- `cconfig_serialize`: serialize the whole document, starting with the
empty (but non-NULL) root prefix. -/
def cconfig_serialize (doc : Pairs) : String :=
  cconfig_serialize_table_contents doc (some "")

-- ## INI parser (`cconfig_ini_parse`)

/-- `strtok(buffer, "\n\r")` driven to completion: the maximal nonempty
runs between newline/carriage-return delimiters. -/
def splitTok (acc : List Char) : List Char → List (List Char)
  | [] => if acc.isEmpty then [] else [acc.reverse]
  | c :: cs =>
    if c = '\n' ∨ c = '\r' then
      if acc.isEmpty then splitTok [] cs else acc.reverse :: splitTok [] cs
    else splitTok (c :: acc) cs

/-- `trim_whitespace` with its return value used: both leading and
trailing `isspace` characters removed. -/
def trim_whitespace (l : List Char) : List Char :=
  ((l.dropWhile isSpaceC).reverse.dropWhile isSpaceC).reverse

/-- The section-line handling of `cconfig_ini_parse` on a trimmed line
starting with `[`: when a `]` is present, copy the characters between
the brackets into the 128-byte section buffer (truncating to 127) and
call `trim_whitespace` on the buffer with the result discarded — so
only the trailing whitespace (removed in place) disappears, leading
whitespace stays in the buffer; without a `]` the section is unchanged. -/
def iniSectionOf (t : List Char) (old : String) : String :=
  if t.any (fun c => c = ']') then
    let inner := (t.drop 1).takeWhile (fun c => !(c == ']'))
    let buf := inner.take 127
    let m := buf.dropWhile isSpaceC
    if m.isEmpty then ⟨buf⟩ else ⟨(buf.reverse.dropWhile isSpaceC).reverse⟩
  else old

/-- The line loop of `cconfig_ini_parse`, instrumented with the list of
handler invocations (section, key, value) in order: comment lines and
section lines are never passed to the handler; a key-value line invokes
it once with the trimmed key and value and the current section; a
non-zero handler result breaks out of the loop. -/
def cconfig_ini_parse_loop (h : String → String → String → Int) :
    List (List Char) → String → List (String × String × String)
  | [], _ => []
  | line :: rest, sect =>
    let t := trim_whitespace line
    if chAt t 0 = '#' ∨ chAt t 0 = ';' then cconfig_ini_parse_loop h rest sect
    else if chAt t 0 = '[' then cconfig_ini_parse_loop h rest (iniSectionOf t sect)
    else if t.any (fun c => c = '=') then
      let key : String := ⟨trim_whitespace (t.takeWhile (fun c => !(c == '=')))⟩
      let value : String := ⟨trim_whitespace ((t.dropWhile (fun c => !(c == '='))).drop 1)⟩
      if h sect key value = 0 then (sect, key, value) :: cconfig_ini_parse_loop h rest sect
      else [(sect, key, value)]
    else cconfig_ini_parse_loop h rest sect

/-- `cconfig_ini_parse` on valid arguments: returns 0 (early
termination by the handler included) together with the invocation
trace; the section starts as the empty string. -/
def cconfig_ini_parse (s : String) (h : String → String → String → Int) :
    Int × List (String × String × String) :=
  (0, cconfig_ini_parse_loop h (splitTok [] s.data) "")

-- ## Specification-side predicates

/-- The `YYYY-MM-DD` shape the specification describes for the datetime
heuristic: exactly four digits, a dash, two digits, a dash and two
digits at the front of the input. -/
def specYMD (l : List Char) : Bool :=
  isDigitC (chAt l 0) && isDigitC (chAt l 1) && isDigitC (chAt l 2) &&
  isDigitC (chAt l 3) && (chAt l 4 == '-') && isDigitC (chAt l 5) &&
  isDigitC (chAt l 6) && (chAt l 7 == '-') && isDigitC (chAt l 8) &&
  isDigitC (chAt l 9)

/-- After the digit run that follows the first character of a number
token, a fractional dot or an exponent marker promotes the token to a
float. -/
def floatShape (cs : List Char) : Bool :=
  let h := chAt (cs.dropWhile isDigitC) 0
  h == '.' || h == 'e' || h == 'E'

/-- No datetime value occurs anywhere in a value tree. -/
inductive NoDT : Value → Prop
  | noneV : NoDT .vNone
  | strV (s : String) : NoDT (.vStr s)
  | intV (i : Int) : NoDT (.vInt i)
  | floatV (q : Rat) : NoDT (.vFloat q)
  | boolV (b : Bool) : NoDT (.vBool b)
  | arrV (es : List Value) : (∀ v ∈ es, NoDT v) → NoDT (.vArr es)
  | tableV (ps : Pairs) : (∀ pr ∈ ps, NoDT pr.2) → NoDT (.vTable ps)

/-- No datetime value occurs in a table. -/
def NoDTps (ps : Pairs) : Prop := ∀ pr ∈ ps, NoDT pr.2

-- ## Claim theorems

set_option maxRecDepth 100000

/-- C1: the spec claims that for inputs with only scalar values and
plain tables, `parse(serialize(parse(text)))` is structurally equivalent
to `parse(text)`.  The code violates this: at the document root the
serializer passes the empty (non-NULL) prefix, so `new_path` becomes
`.key` for a root sub-table, the emitted header is `[.t]`, and
re-parsing that header fails.  This theorem evaluates the code at the
failing input `[t]\nb = 2\n`: the input parses, its serialization is
`[.t]\nb = 2\n\n`, and parsing the serialization returns the failure
result instead of an equivalent document. -/
theorem c1_roundtrip_failure :
    cconfig_parse "[t]\nb = 2\n" 64 = some [("t", .vTable [("b", .vInt 2)])] ∧
    cconfig_serialize [("t", .vTable [("b", .vInt 2)])] = "[.t]\nb = 2\n\n" ∧
    cconfig_parse "[.t]\nb = 2\n\n" 64 = none := by
  exact ⟨rfl, rfl, rfl⟩

/-- C9: evaluation of the INI parser at its interface.  The concrete
scenario of the spec holds (`[s]` then `k = v` gives exactly one
invocation with `("s", "k", "v")`), the walk stops after the first
invocation when the handler returns non-zero while the call still
returns 0, and the return value is always 0.  But the claim that the
section name is whitespace-trimmed fails: `trim_whitespace(section)` is
called with its result discarded, so only trailing whitespace (removed
in place) disappears and the handler sees `" s"` for the section line
`[ s ]`. -/
theorem c9_ini_callback :
    cconfig_ini_parse "[s]\nk = v\n" (fun _ _ _ => 0) = (0, [("s", "k", "v")]) ∧
    cconfig_ini_parse "[ s ]\nk = v\n" (fun _ _ _ => 0) = (0, [(" s", "k", "v")]) ∧
    cconfig_ini_parse "# c\n; c2\n[s]\nk = v\nk2 = v2\n" (fun _ _ _ => 1) =
      (0, [("s", "k", "v")]) ∧
    (∀ (s : String) (h : String → String → String → Int), (cconfig_ini_parse s h).1 = 0) := by
  exact ⟨rfl, rfl, rfl, fun _ _ => rfl⟩

/-- C3: duplicate key insertion is permitted (pairs are appended without
any duplicate check: parsing `a = 1\na = 2` succeeds and keeps both
pairs in insertion order) and `cconfig_get_value_from_table` returns the
first matching pair in insertion order; consequently
`get_int(doc, "a", 0)` returns 1 for that input. -/
theorem c3_duplicate_keys :
    (∀ (pre post : Pairs) (key : String) (v : Value),
      (∀ pr ∈ pre, pr.1 ≠ key) →
      cconfig_get_value_from_table (pre ++ (key, v) :: post) key = some v) ∧
    cconfig_parse "a = 1\na = 2" 64 = some [("a", .vInt 1), ("a", .vInt 2)] ∧
    cconfig_get_int [("a", .vInt 1), ("a", .vInt 2)] "a" 0 = 1 := by
  refine ⟨?_, rfl, rfl⟩
  intro pre post key v h
  induction pre with
  | nil => simp [cconfig_get_value_from_table]
  | cons pr ps ih =>
    have h1 : pr.1 ≠ key := h pr (by simp)
    rw [List.cons_append, cconfig_get_value_from_table, if_neg h1]
    exact ih (fun q hq => h q (by simp [hq]))

/-- Witness for C3: a concrete first-match lookup behind one
non-matching pair. -/
theorem c3_witness :
    cconfig_get_value_from_table [("b", .vInt 0), ("a", .vInt 5)] "a" = some (.vInt 5) :=
  c3_duplicate_keys.1 [("b", Value.vInt 0)] [] "a" (Value.vInt 5)
    (by intro pr hpr; rw [List.mem_singleton] at hpr; subst hpr; decide)

/-- C7: a key segment of 256 bytes or more makes the resolver fail on
its fixed 256-byte key buffer, regardless of the table contents; the
typed accessors then return their defaults. -/
theorem c7_key_buffer :
    (∀ (fuel : Nat) (ps : Pairs) (p : List Char),
      256 ≤ (p.takeWhile (fun d => !isSegEnd d)).length →
      resolve_loop (fuel + 1) (some (.vTable ps)) p = none) ∧
    (∀ (doc : Pairs) (path : String) (d : Int),
      256 ≤ (path.data.takeWhile (fun d => !isSegEnd d)).length →
      cconfig_get_int doc path d = d) := by
  have main : ∀ (fuel : Nat) (ps : Pairs) (p : List Char),
      256 ≤ (p.takeWhile (fun d => !isSegEnd d)).length →
      resolve_loop (fuel + 1) (some (.vTable ps)) p = none := by
    intro fuel ps p h
    match p with
    | [] => simp [List.takeWhile] at h
    | c :: pt =>
      by_cases hc : c = '['
      · subst hc
        simp [List.takeWhile_cons, isSegEnd] at h
      · have hseg : (256 ≤ ((c :: pt).takeWhile (fun d => !isSegEnd d)).length) = True :=
          eq_true h
        simp only [resolve_loop, if_neg hc, hseg, if_true]
  refine ⟨main, ?_⟩
  intro doc path d h
  have h2 := main path.data.length doc path.data h
  simp only [cconfig_get_int, cconfig_get_value]
  rw [h2]

/-- Witness for C7: a 256-character key fails to resolve even though a
pair with exactly that key is present. -/
theorem c7_witness :
    resolve_loop 300 (some (.vTable [(⟨List.replicate 256 'a'⟩, .vInt 1)]))
      (List.replicate 256 'a') = none ∧
    cconfig_get_int [(⟨List.replicate 256 'a'⟩, .vInt 1)] ⟨List.replicate 256 'a'⟩ 7 = 7 :=
  ⟨c7_key_buffer.1 299 _ _ (by decide), c7_key_buffer.2 _ _ 7 (by decide)⟩

/-- C8: the typed accessors return the caller-supplied default on an
unresolved path or a wrong variant and have no error channel;
`cconfig_get_double` additionally promotes an integer match to its
double value; in particular `x = 5` gives `get_double(doc, "x", 0) = 5`. -/
theorem c8_accessor_defaults :
    (∀ (doc : Pairs) (path : String),
      (cconfig_get_value doc path = none →
        ∀ (ds : String) (di : Int) (db : Bool) (dd : Rat),
          cconfig_get_string doc path ds = ds ∧ cconfig_get_int doc path di = di ∧
          cconfig_get_bool doc path db = db ∧ cconfig_get_double doc path dd = dd) ∧
      (∀ v, cconfig_get_value doc path = some v →
        ((∀ s, v ≠ .vStr s) → ∀ ds, cconfig_get_string doc path ds = ds) ∧
        ((∀ i, v ≠ .vInt i) → ∀ di, cconfig_get_int doc path di = di) ∧
        ((∀ b, v ≠ .vBool b) → ∀ db, cconfig_get_bool doc path db = db) ∧
        ((∀ i, v ≠ .vInt i) → (∀ q, v ≠ .vFloat q) → ∀ dd, cconfig_get_double doc path dd = dd)) ∧
      (∀ i, cconfig_get_value doc path = some (.vInt i) →
        ∀ dd, cconfig_get_double doc path dd = (i : Rat))) ∧
    cconfig_parse "x = 5" 64 = some [("x", .vInt 5)] ∧
    cconfig_get_double [("x", .vInt 5)] "x" 0 = 5 := by
  refine ⟨?_, rfl, rfl⟩
  intro doc path
  refine ⟨?_, ?_, ?_⟩
  · intro h ds di db dd
    simp [cconfig_get_string, cconfig_get_int, cconfig_get_bool, cconfig_get_double, h]
  · intro v hv
    refine ⟨?_, ?_, ?_, ?_⟩
    · intro hne ds
      simp only [cconfig_get_string, hv]
      cases v with
      | vStr s => exact absurd rfl (hne s)
      | _ => rfl
    · intro hne di
      simp only [cconfig_get_int, hv]
      cases v with
      | vInt i => exact absurd rfl (hne i)
      | _ => rfl
    · intro hne db
      simp only [cconfig_get_bool, hv]
      cases v with
      | vBool b => exact absurd rfl (hne b)
      | _ => rfl
    · intro hni hnf dd
      simp only [cconfig_get_double, hv]
      cases v with
      | vInt i => exact absurd rfl (hni i)
      | vFloat q => exact absurd rfl (hnf q)
      | _ => rfl
  · intro i hv dd
    simp only [cconfig_get_double, hv]

/-- Witness for C8: an unresolved path yields the default, and an
integer match is promoted by `cconfig_get_double`. -/
theorem c8_witness :
    (cconfig_get_string [("y", .vBool true)] "x" "d" = "d" ∧
     cconfig_get_int [("y", .vBool true)] "x" 42 = 42 ∧
     cconfig_get_bool [("y", .vBool true)] "x" false = false ∧
     cconfig_get_double [("y", .vBool true)] "x" 3 = 3) ∧
    cconfig_get_double [("x", .vInt 5)] "x" 0 = 5 :=
  ⟨(c8_accessor_defaults.1 [("y", Value.vBool true)] "x").1 rfl "d" 42 false 3,
   (c8_accessor_defaults.1 [("x", Value.vInt 5)] "x").2.2 5 rfl 0⟩

/-- C4: in the array loop, when (after any comments and newlines
following the comma) the token after a comma is the closing `]`, the
parse of the value fails with the error `Expected \x27]\x27 to close
array.`; concretely `key = [1, 2, ]` fails to parse with exactly that
message in the buffer (which contains the required text), while
`key = [1, 2]` parses. -/
theorem c4_trailing_comma :
    (∀ st : PSt, st.cur.ty ≠ TokTy.rbracket → st.cur.ty = TokTy.comma →
      (skipCN (advTok st)).cur.ty = TokTy.rbracket →
      (array_after_elem st).1 = ArrStep.failed ∧
      (array_after_elem st).2.errs =
        (skipCN (advTok st)).errs ++
          [⟨(skipCN (advTok st)).prev.line, (skipCN (advTok st)).prev.col, arrCloseMsg⟩]) ∧
    cconfig_parse "key = [1, 2, ]" 64 = none ∧
    errBufOf 64 (cconfig_parse_full "key = [1, 2, ]" 64).2.errs =
      some "Error at line 1, col 12: Expected \x27]\x27 to close array." ∧
    arrCloseMsg.data <:+: "Error at line 1, col 12: Expected \x27]\x27 to close array.".data ∧
    cconfig_parse "key = [1, 2]" 64 = some [("key", .vArr [.vInt 1, .vInt 2])] := by
  refine ⟨?_, rfl, rfl, ⟨"Error at line 1, col 12: ".data, [], by decide⟩, rfl⟩
  intro st h1 h2 h3
  simp [array_after_elem, consumeTok, h1, h2, h3, parser_error]

/-- Witness for C4: a concrete parser state sitting on the comma of
`[1, 2, ]` runs into the trailing-comma error. -/
theorem c4_witness :
    (array_after_elem ⟨[⟨.rbracket, "]", 1, 14⟩, ⟨.eof, "", 1, 15⟩],
        ⟨.comma, ",", 1, 12⟩, ⟨.integer, "2", 1, 11⟩, 64, [], [], []⟩).1 = ArrStep.failed ∧
    (array_after_elem ⟨[⟨.rbracket, "]", 1, 14⟩, ⟨.eof, "", 1, 15⟩],
        ⟨.comma, ",", 1, 12⟩, ⟨.integer, "2", 1, 11⟩, 64, [], [], []⟩).2.errs =
      [⟨1, 12, arrCloseMsg⟩] := by
  have h := c4_trailing_comma.1
    ⟨[⟨.rbracket, "]", 1, 14⟩, ⟨.eof, "", 1, 15⟩],
      ⟨.comma, ",", 1, 12⟩, ⟨.integer, "2", 1, 11⟩, 64, [], [], []⟩
    (by decide) (by decide) (by decide)
  exact ⟨h.1, h.2.trans (by decide)⟩

/-- The consumed prefix of `lexRun` is the matching prefix. -/
theorem lexRun_fst (p : Char → Bool) (l : List Char) (col : Nat) :
    (lexRun p l col).1 = l.takeWhile p := by
  induction l generalizing col with
  | nil => simp [lexRun, List.takeWhile]
  | cons c cs ih =>
    by_cases hc : p c <;> simp [lexRun, hc, List.takeWhile_cons, ih]

/-- The remainder left by `lexRun` is the non-matching suffix. -/
theorem lexRun_rest (p : Char → Bool) (l : List Char) (col : Nat) :
    (lexRun p l col).2.1 = l.dropWhile p := by
  induction l generalizing col with
  | nil => simp [lexRun, List.dropWhile]
  | cons c cs ih =>
    by_cases hc : p c <;> simp [lexRun, hc, List.dropWhile_cons, ih]

/-- C5 counterexample: the claim says a Datetime token is emitted if and
only if the exact `YYYY-MM-DD` shape (four digits, dash, two digits,
dash, two digits) matches.  The code only requires the three characters
after the leading digit to be present, so `1abc-12-34` lexes as a
Datetime token although the claimed shape does not match. -/
theorem c5_counterexample :
    (next_token ⟨"1abc-12-34".data, 1, 1⟩).1.ty = TokTy.datetime ∧
    specYMD "1abc-12-34".data = false := by
  exact ⟨rfl, rfl⟩

/-- C5 (amended): for a token beginning with a digit, `+` or `-`, the
lexer enters the number branch; there it emits a Datetime token, which
covers exactly ten characters, if and only if the heuristic of the code
matches — the first character a digit, the next three characters merely
present, then `-`, two digits, `-`, two digits; otherwise the token is
an Integer, promoted to Float exactly when a fractional dot or an
exponent marker follows the leading digit run. -/
theorem c5_datetime_heuristic :
    (∀ (c : Char) (cs : List Char) (line col : Nat),
      (isDigitC c || c == '-' || c == '+') = true →
      next_token ⟨c :: cs, line, col⟩ = number_token c cs line (col + 1) col) ∧
    (∀ (c : Char) (cs : List Char) (line col scol : Nat),
      ((number_token c cs line col scol).1.ty = TokTy.datetime ↔ dtHeur c cs = true) ∧
      (dtHeur c cs = true →
        (number_token c cs line col scol).1.text.data = c :: cs.take 9) ∧
      (dtHeur c cs = false →
        ((number_token c cs line col scol).1.ty = TokTy.float ↔ floatShape cs = true) ∧
        ((number_token c cs line col scol).1.ty = TokTy.integer ↔ floatShape cs = false))) := by
  constructor
  · intro c cs line col h
    have h3 : isDigitC c = true ∨ c = '-' ∨ c = '+' := by
      rcases (Bool.or_eq_true _ _).mp h with h1 | h1
      · rcases (Bool.or_eq_true _ _).mp h1 with h2 | h2
        · exact Or.inl h2
        · exact Or.inr (Or.inl (eq_of_beq h2))
      · exact Or.inr (Or.inr (eq_of_beq h1))
    have hno : isLexWS c = false ∧ isAlphaC c = false ∧ (c == '_') = false := by
      rcases h3 with hd | hc | hc
      · have hne : ∀ d : Char, isDigitC d = false → c ≠ d := by
          intro d hdf he
          subst he
          exact absurd hdf (by simp [hd])
        have w1 : (c == ' ') = false := beq_eq_false_iff_ne.mpr (hne ' ' (by decide))
        have w2 : (c == '\r') = false := beq_eq_false_iff_ne.mpr (hne '\r' (by decide))
        have w3 : (c == '\t') = false := beq_eq_false_iff_ne.mpr (hne '\t' (by decide))
        have w4 : (c == '_') = false := beq_eq_false_iff_ne.mpr (hne '_' (by decide))
        have hb : 48 ≤ c.toNat ∧ c.toNat ≤ 57 := by simpa [isDigitC] using hd
        refine ⟨by simp [isLexWS, w1, w2, w3], ?_, w4⟩
        simp only [isAlphaC, Bool.or_eq_false_iff, Bool.and_eq_false_iff,
          decide_eq_false_iff_not, not_le]
        omega
      · subst hc; exact ⟨by decide, by decide, by decide⟩
      · subst hc; exact ⟨by decide, by decide, by decide⟩
    simp [next_token, skipWS, hno.1, hno.2.1, hno.2.2, h]
  · intro c cs line col scol
    by_cases hdt : dtHeur c cs = true
    · refine ⟨by simp [number_token, hdt], fun _ => by simp [number_token, hdt], ?_⟩
      intro hf
      exact absurd hdt (by simp [hf])
    · have hd2 : dtHeur c cs = false := by simpa using hdt
      have hty : (number_token c cs line col scol).1.ty =
          if floatShape cs then TokTy.float else TokTy.integer := by
        simp only [number_token, hd2, Bool.false_eq_true, if_false]
        rw [lexRun_rest]
        simp only [floatShape]
        by_cases hf : chAt (cs.dropWhile isDigitC) 0 == '.'
        · simp [hf]
        · have hf2 : (chAt (cs.dropWhile isDigitC) 0 == '.') = false := by simpa using hf
          simp [hf2]
      refine ⟨?_, fun hx => absurd hx (by simp [hd2]), fun _ => ?_⟩
      · rw [hty]
        constructor
        · intro hh
          by_cases hfs : floatShape cs = true <;> simp [hfs] at hh
        · intro hh
          exact absurd hh (by simp [hd2])
      · rw [hty]
        constructor
        · constructor
          · intro hh
            by_cases hfs : floatShape cs = true
            · exact hfs
            · simp [hfs] at hh
          · intro hh; simp [hh]
        · constructor
          · intro hh
            by_cases hfs : floatShape cs = true
            · simp [hfs] at hh
            · simpa using hfs
          · intro hh; simp [hh]

/-- Witness for C5: the number branch is entered for `2023-01-15`, which
lexes as a Datetime token, while `15x` stays an Integer and `1.5`
becomes a Float. -/
theorem c5_witness :
    next_token ⟨'2' :: "023-01-15".data, 1, 1⟩ = number_token '2' "023-01-15".data 1 2 1 ∧
    (number_token '2' "023-01-15".data 1 2 1).1.ty = TokTy.datetime ∧
    (number_token '1' "5x".data 1 2 1).1.ty = TokTy.integer ∧
    (number_token '1' ".5".data 1 2 1).1.ty = TokTy.float := by
  refine ⟨c5_datetime_heuristic.1 '2' _ 1 1 (by decide), ?_, ?_, ?_⟩
  · exact (c5_datetime_heuristic.2 '2' _ 1 2 1).1.mpr (by decide)
  · exact ((c5_datetime_heuristic.2 '1' _ 1 2 1).2.2 (by decide)).2.mpr (by decide)
  · exact ((c5_datetime_heuristic.2 '1' _ 1 2 1).2.2 (by decide)).1.mpr (by decide)

/-- Two characters differing in digit-ness differ. -/
theorem digit_ne (c d : Char) (h : isDigitC c = true) (hd : isDigitC d = false) : c ≠ d := by
  intro he
  subst he
  exact absurd hd (by simp [h])

/-- A digit is not `isspace` whitespace. -/
theorem digit_not_space (c : Char) (h : isDigitC c = true) : isSpaceC c = false := by
  have hb : 48 ≤ c.toNat ∧ c.toNat ≤ 57 := by simpa [isDigitC] using h
  have w1 : (c == ' ') = false := beq_eq_false_iff_ne.mpr (digit_ne c ' ' h (by decide))
  have w2 : (c == '\t') = false := beq_eq_false_iff_ne.mpr (digit_ne c '\t' h (by decide))
  have w3 : (c == '\n') = false := beq_eq_false_iff_ne.mpr (digit_ne c '\n' h (by decide))
  have w4 : (c == '\r') = false := beq_eq_false_iff_ne.mpr (digit_ne c '\r' h (by decide))
  have w5 : (c.toNat == 11) = false := beq_eq_false_iff_ne.mpr (by omega)
  have w6 : (c.toNat == 12) = false := beq_eq_false_iff_ne.mpr (by omega)
  simp [isSpaceC, w1, w2, w3, w4, w5, w6]

/-- `takeWhile`/`dropWhile` on a digit run followed by a non-digit. -/
theorem digits_split (ds l : List Char) (hds : ∀ c ∈ ds, isDigitC c = true)
    (hl : isDigitC (chAt l 0) = false) :
    (ds ++ l).takeWhile isDigitC = ds ∧ (ds ++ l).dropWhile isDigitC = l := by
  induction ds with
  | nil =>
    simp only [List.nil_append]
    cases l with
    | nil => simp
    | cons c cs =>
      simp only [chAt, List.getD, List.get?, Option.getD_some] at hl
      simp [List.takeWhile_cons, List.dropWhile_cons, hl]
  | cons d ds2 ih =>
    have hd : isDigitC d = true := hds d (by simp)
    have ih2 := ih (fun c hc => hds c (by simp [hc]))
    simp [List.takeWhile_cons, List.dropWhile_cons, hd, ih2.1, ih2.2]

/-- `strtol` on a nonempty digit run below the overflow bound, followed
by a non-digit: the parsed value and the untouched remainder. -/
theorem strtolM_digits (ds l : List Char) (hne : ds ≠ [])
    (hds : ∀ c ∈ ds, isDigitC c = true) (hb : natOfDigits ds < 2 ^ 63)
    (hl : isDigitC (chAt l 0) = false) :
    strtolM (ds ++ l) = (some (natOfDigits ds : Int), l) := by
  obtain ⟨d, ds2, rfl⟩ : ∃ d ds2, ds = d :: ds2 := by
    cases ds with
    | nil => exact absurd rfl hne
    | cons d ds2 => exact ⟨d, ds2, rfl⟩
  have hd : isDigitC d = true := hds d (by simp)
  have hsp : isSpaceC d = false := digit_not_space d hd
  have hsgn1 : (d == '-') = false := beq_eq_false_iff_ne.mpr (digit_ne d '-' hd (by decide))
  have hsgn2 : (d == '+') = false := beq_eq_false_iff_ne.mpr (digit_ne d '+' hd (by decide))
  have hsplit := digits_split (d :: ds2) l hds hl
  have htw : ((d :: ds2) ++ l).takeWhile isDigitC = d :: ds2 := hsplit.1
  have hdw : ((d :: ds2) ++ l).dropWhile isDigitC = l := hsplit.2
  have hclamp : clampI64 ((natOfDigits (d :: ds2) : Nat) : Int) = (natOfDigits (d :: ds2) : Int) := by
    simp only [clampI64]
    rw [if_neg (by omega), if_neg (by omega)]
  simp only [strtolM, List.cons_append, List.dropWhile_cons, hsp, Bool.false_eq_true, if_false,
    chAt, List.getD, List.get?, Option.getD_some, hsgn1, hsgn2, Bool.or_self, Bool.false_or]
  have hdw2 : List.dropWhile isDigitC (ds2 ++ l) = l := by
    rw [List.cons_append, List.dropWhile_cons, hd] at hdw
    simpa using hdw
  have htw2 : List.takeWhile isDigitC (ds2 ++ l) = ds2 := by
    rw [List.cons_append, List.takeWhile_cons, hd] at htw
    simpa using htw
  simp [hd, hclamp, hdw2, htw2]

/-- `strtol` on a minus sign followed by a digit run and a non-digit. -/
theorem strtolM_neg (ds l : List Char) (hne : ds ≠ [])
    (hds : ∀ c ∈ ds, isDigitC c = true) (hl : isDigitC (chAt l 0) = false) :
    strtolM ('-' :: (ds ++ l)) = (some (clampI64 (-(natOfDigits ds : Int))), l) := by
  have hsplit := digits_split ds l hds hl
  have hemp : ds.isEmpty = false := by
    cases ds with
    | nil => exact absurd rfl hne
    | cons d ds2 => rfl
  simp only [strtolM, List.dropWhile_cons, show isSpaceC '-' = false from rfl,
    Bool.false_eq_true, if_false, chAt, List.getD, List.get?, Option.getD_some,
    show ('-' == '-') = true from rfl, Bool.true_or, if_true, List.drop_succ_cons,
    List.drop_zero, hsplit.1, hsplit.2, hemp, if_pos]

/-- A clamped negation of a positive value is negative. -/
theorem clamp_neg_lt (n : Nat) (h : 0 < n) : clampI64 (-(n : Int)) < 0 := by
  simp only [clampI64]
  split
  · omega
  · split <;> omega

/-- The clamp is the identity below the bound. -/
theorem clamp_id (n : Nat) (h : n < 2 ^ 63) : clampI64 ((n : Nat) : Int) = (n : Int) := by
  simp only [clampI64]
  rw [if_neg (by omega), if_neg (by omega)]

/-- C6: resolving `[i]` against an array of `count` elements returns
element `i` when `0 <= i < count` and fails for an out-of-range,
negative, or malformed index (no digits after the bracket, or no
closing bracket after them); the typed accessors then return the
caller-supplied default. -/
theorem c6_array_index :
    (∀ (es : List Value) (rest : List Char) (fuel : Nat) (ds : List Char),
      ds ≠ [] → (∀ c ∈ ds, isDigitC c = true) → natOfDigits ds < 2 ^ 63 →
      (∀ h : natOfDigits ds < es.length,
        resolve_loop (fuel + 1) (some (.vArr es)) ('[' :: (ds ++ ']' :: rest)) =
          resolve_loop fuel (some (es.get ⟨natOfDigits ds, h⟩)) (dotSkip rest)) ∧
      (es.length ≤ natOfDigits ds →
        resolve_loop (fuel + 1) (some (.vArr es)) ('[' :: (ds ++ ']' :: rest)) = none) ∧
      (0 < natOfDigits ds →
        resolve_loop (fuel + 1) (some (.vArr es)) ('[' :: '-' :: (ds ++ ']' :: rest)) = none)) ∧
    (∀ (es : List Value) (rest : List Char) (fuel : Nat),
      resolve_loop (fuel + 1) (some (.vArr es)) ('[' :: ']' :: rest) = none) ∧
    (∀ (es : List Value) (rest : List Char) (fuel : Nat) (ds : List Char) (c : Char),
      (∀ d ∈ ds, isDigitC d = true) → isDigitC c = false → c ≠ ']' → isSpaceC c = false →
      c ≠ '-' → c ≠ '+' →
      resolve_loop (fuel + 1) (some (.vArr es)) ('[' :: (ds ++ c :: rest)) = none) ∧
    (∀ (doc : Pairs) (path : String) (d : Int),
      cconfig_get_value doc path = none → cconfig_get_int doc path d = d) := by
  refine ⟨?_, ?_, ?_, ?_⟩
  · intro es rest fuel ds hne hds hb
    have hl : isDigitC (chAt (']' :: rest) 0) = false := by rfl
    have hs := strtolM_digits ds (']' :: rest) hne hds hb hl
    have e1 : chAt (']' :: rest) 0 = ']' := rfl
    refine ⟨?_, ?_, ?_⟩
    · intro h
      simp only [resolve_loop, if_pos rfl, hs, e1, if_true]
      rw [if_neg (show ¬((natOfDigits ds : Int) < 0 ∨ (es.length : Int) ≤ (natOfDigits ds : Int)) by omega)]
      simp only [List.drop_succ_cons, List.drop_zero, Int.toNat_natCast]
      rw [List.get?_eq_get h]
    · intro h
      simp only [resolve_loop, if_pos rfl, hs, e1, if_true]
      rw [if_pos (show ((natOfDigits ds : Int) < 0 ∨ (es.length : Int) ≤ (natOfDigits ds : Int)) from Or.inr (by omega))]
    · intro h
      have hsneg := strtolM_neg ds (']' :: rest) hne hds hl
      simp only [resolve_loop, if_pos rfl, hsneg, e1, if_true]
      rw [if_pos (Or.inl (clamp_neg_lt _ h))]
  · intro es rest fuel
    have hnone : strtolM (']' :: rest) = (none, ']' :: rest) := by
      simp only [strtolM, List.dropWhile_cons, show isSpaceC ']' = false from rfl,
        Bool.false_eq_true, if_false, chAt, List.getD, List.get?, Option.getD_some,
        show (']' == '-') = false from rfl, show (']' == '+') = false from rfl,
        Bool.or_self, Bool.false_or, List.takeWhile_cons,
        show isDigitC ']' = false from rfl]
      simp
    simp only [resolve_loop, if_pos rfl, hnone]
    simp
  · intro es rest fuel ds c hds hcd hcb hcs hcm hcp
    have hl : isDigitC (chAt (c :: rest) 0) = false := by
      simpa [chAt] using hcd
    have hcb2 : chAt (c :: rest) 0 ≠ ']' := by simpa [chAt] using hcb
    by_cases hde : ds = []
    · subst hde
      have hnone : strtolM (c :: rest) = (none, c :: rest) := by
        simp only [strtolM, List.dropWhile_cons, hcs, Bool.false_eq_true, if_false, chAt,
          List.getD, List.get?, Option.getD_some,
          beq_eq_false_iff_ne.mpr hcm, beq_eq_false_iff_ne.mpr hcp, Bool.or_self,
          Bool.false_or, List.takeWhile_cons, hcd]
        simp
      simp only [List.nil_append, resolve_loop, if_pos rfl, hnone]
      simp
    · by_cases hb : natOfDigits ds < 2 ^ 63
      · have hs := strtolM_digits ds (c :: rest) hde hds hb hl
        simp only [resolve_loop, if_pos rfl, hs]
        rw [if_neg hcb2]
        simp
      · have hsplit := digits_split ds (c :: rest) hds hl
        obtain ⟨d, ds2, rfl⟩ : ∃ d ds2, ds = d :: ds2 := by
          cases ds with
          | nil => exact absurd rfl hde
          | cons d ds2 => exact ⟨d, ds2, rfl⟩
        have hd : isDigitC d = true := hds d (by simp)
        have hsp : isSpaceC d = false := digit_not_space d hd
        have hsgn1 : (d == '-') = false := beq_eq_false_iff_ne.mpr (digit_ne d '-' hd (by decide))
        have hsgn2 : (d == '+') = false := beq_eq_false_iff_ne.mpr (digit_ne d '+' hd (by decide))
        have htw2 : List.takeWhile isDigitC (ds2 ++ c :: rest) = ds2 := by
          have := hsplit.1
          rw [List.cons_append, List.takeWhile_cons, hd] at this
          simpa using this
        have hdw2 : List.dropWhile isDigitC (ds2 ++ c :: rest) = c :: rest := by
          have := hsplit.2
          rw [List.cons_append, List.dropWhile_cons, hd] at this
          simpa using this
        simp only [resolve_loop, if_pos rfl, strtolM, List.cons_append, List.dropWhile_cons,
          hsp, Bool.false_eq_true, if_false, chAt, List.getD, List.get?, Option.getD_some,
          hsgn1, hsgn2, Bool.or_self, Bool.false_or, List.takeWhile_cons, hd, if_true,
          htw2, hdw2]
        simp only [List.isEmpty_cons, Bool.false_eq_true, if_false]
        rw [if_neg (by simpa [chAt] using hcb)]
  · intro doc path d h
    simp [cconfig_get_int, h]

/-- Witness for C6: concrete in-range, out-of-range, negative and
malformed index resolutions, and the accessor default. -/
theorem c6_witness :
    resolve_loop 4 (some (.vArr [.vInt 7, .vInt 9])) ('[' :: (['1'] ++ ']' :: [])) =
      resolve_loop 3 (some (.vInt 9)) [] ∧
    resolve_loop 4 (some (.vArr [.vInt 7, .vInt 9])) ('[' :: (['2'] ++ ']' :: [])) = none ∧
    resolve_loop 4 (some (.vArr [.vInt 7, .vInt 9])) ('[' :: '-' :: (['1'] ++ ']' :: [])) = none ∧
    resolve_loop 4 (some (.vArr [.vInt 7])) ('[' :: ']' :: []) = none ∧
    resolve_loop 4 (some (.vArr [.vInt 7])) ('[' :: ([] ++ 'x' :: [])) = none ∧
    cconfig_get_int [("a", .vArr [.vInt 7])] "a[5]" (-3) = -3 := by
  refine ⟨?_, ?_, ?_, ?_, ?_, ?_⟩
  · exact (c6_array_index.1 [.vInt 7, .vInt 9] [] 3 ['1'] (by decide) (by decide)
      (by decide)).1 (by decide)
  · exact (c6_array_index.1 [.vInt 7, .vInt 9] [] 3 ['2'] (by decide) (by decide)
      (by decide)).2.1 (by decide)
  · exact (c6_array_index.1 [.vInt 7, .vInt 9] [] 3 ['1'] (by decide) (by decide)
      (by decide)).2.2 (by decide)
  · exact c6_array_index.2.1 [.vInt 7] [] 3
  · exact c6_array_index.2.2.1 [.vInt 7] [] 3 [] 'x' (by decide) (by decide) (by decide)
      (by decide) (by decide) (by decide)
  · exact c6_array_index.2.2.2 [("a", .vArr [.vInt 7])] "a[5]" (-3) (by rfl)

/-- `parser_error` leaves a nonempty error log. -/
theorem parser_error_ne (st : PSt) (m : String) : (parser_error st m).errs ≠ [] := by
  simp [parser_error]

/-- A failing `consume_token` with a message reports an error. -/
theorem consumeTok_false_errs (st : PSt) (ty : TokTy) (m : String) (st2 : PSt)
    (h : consumeTok st ty (some m) = (false, st2)) : st2.errs ≠ [] := by
  unfold consumeTok at h
  by_cases hc : st.cur.ty = ty
  · simp [hc] at h
  · simp only [hc, if_false, Prod.mk.injEq] at h
    rw [← h.2]
    exact parser_error_ne st m

/-- When the standard-table-header walk returns NULL, an error has been
reported. -/
theorem table_header_loop_none (fuel : Nat) : ∀ (tp : VPath) (st : PSt),
    (table_header_loop fuel tp st).1 = none → (table_header_loop fuel tp st).2.errs ≠ [] := by
  induction fuel with
  | zero =>
    intro tp st _
    exact parser_error_ne st "Out of memory."
  | succ n ih =>
    intro tp st h
    by_cases hid : st.cur.ty = .ident
    · rcases hfc : find_or_create_table st.root tp st.cur.text with ⟨root2, op⟩
      cases op with
      | none =>
        have heq : table_header_loop (n + 1) tp st =
            (none, parser_error { st with root := root2 } "Failed to create or find table.") := by
          simp only [table_header_loop, hid, if_true, hfc]
        rw [heq]
        exact parser_error_ne _ _
      | some tp2 =>
        by_cases hdot : (advTok { st with root := root2 }).cur.ty = .dot
        · have heq : table_header_loop (n + 1) tp st =
              table_header_loop n tp2 (advTok (advTok { st with root := root2 })) := by
            simp only [table_header_loop, hid, if_true, hfc, hdot]
          rw [heq] at h ⊢
          exact ih _ _ h
        · have heq : table_header_loop (n + 1) tp st =
              (some tp2, advTok { st with root := root2 }) := by
            simp only [table_header_loop, hid, if_true, hfc, hdot, if_false]
          rw [heq] at h
          simp at h
    · have heq : table_header_loop (n + 1) tp st = (some tp, st) := by
        simp only [table_header_loop, hid, if_false]
      rw [heq] at h
      simp at h

/-- When the array-of-tables-header walk returns NULL, an error has been
reported. -/
theorem aot_header_loop_none (fuel : Nat) : ∀ (tp : VPath) (st : PSt),
    (aot_header_loop fuel tp st).1 = none → (aot_header_loop fuel tp st).2.errs ≠ [] := by
  induction fuel with
  | zero =>
    intro tp st _
    exact parser_error_ne st "Out of memory."
  | succ n ih =>
    intro tp st h
    by_cases hid : st.cur.ty = .ident
    · by_cases hdot : (advTok st).cur.ty = .dot
      · rcases hfc : find_or_create_table (advTok st).root tp st.cur.text with ⟨root2, op⟩
        cases op with
        | none =>
          have heq : aot_header_loop (n + 1) tp st =
              (none, parser_error { advTok st with root := root2 } "Failed to create table path.") := by
            simp only [aot_header_loop, hid, if_true, hdot, hfc]
          rw [heq]
          exact parser_error_ne _ _
        | some p2 =>
          have heq : aot_header_loop (n + 1) tp st =
              aot_header_loop n p2 (advTok { advTok st with root := root2 }) := by
            simp only [aot_header_loop, hid, if_true, hdot, hfc]
          rw [heq] at h ⊢
          exact ih _ _ h
      · rcases hfa : find_or_create_array_of_tables (advTok st) tp st.cur.text with ⟨st3, oA⟩
        have heq : aot_header_loop (n + 1) tp st = (some oA, st3) := by
          simp only [aot_header_loop, hid, if_true, hdot, if_false, hfa]
        rw [heq] at h
        simp at h
    · have heq : aot_header_loop (n + 1) tp st = (some none, st) := by
        simp only [aot_header_loop, hid, if_false]
      rw [heq] at h
      simp at h

/-- Whenever the statement loop takes an early NULL return, an error has
been reported. -/
theorem parse_loop_none (fuel : Nat) : ∀ (st : PSt),
    (parse_loop fuel st).1 = none → (parse_loop fuel st).2.errs ≠ [] := by
  induction fuel with
  | zero =>
    intro st _
    exact parser_error_ne st "Out of memory."
  | succ n ih =>
    intro st h
    by_cases heof : st.cur.ty = .eof
    · have heq : parse_loop (n + 1) st = (some (), st) := by
        simp only [parse_loop]
        rw [if_pos heof]
      rw [heq] at h
      simp at h
    · by_cases hnc : st.cur.ty = .newline ∨ st.cur.ty = .comment
      · have heq : parse_loop (n + 1) st = parse_loop n (advTok st) := by
          simp only [parse_loop]
          rw [if_neg heof, if_pos hnc]
        rw [heq] at h ⊢
        exact ih _ h
      · by_cases hlb : st.cur.ty = .lbracket
        · rcases hct : consumeTok (advTok st) .lbracket none with ⟨flag, st3⟩
          cases flag
          · rcases hthl : table_header_loop n [] st3 with ⟨otp, st4⟩
            cases otp with
            | none =>
              have heq : parse_loop (n + 1) st = (none, st4) := by
                simp only [parse_loop]
                rw [if_neg heof, if_neg hnc, if_pos hlb]
                simp only [hct, hthl]
              rw [heq]
              have h2 := table_header_loop_none n [] st3
              rw [hthl] at h2
              exact h2 rfl
            | some tp =>
              rcases hcr : consumeTok { st4 with curT := tp } .rbracket (some "Expected \x27]\x27 after table name.") with ⟨flag2, st6⟩
              cases flag2
              · have heq : parse_loop (n + 1) st = (none, st6) := by
                  simp only [parse_loop]
                  rw [if_neg heof, if_neg hnc, if_pos hlb]
                  simp only [hct, hthl, hcr]
                rw [heq]
                exact consumeTok_false_errs _ _ _ _ hcr
              · have heq : parse_loop (n + 1) st = parse_loop n st6 := by
                  simp only [parse_loop]
                  rw [if_neg heof, if_neg hnc, if_pos hlb]
                  simp only [hct, hthl, hcr]
                rw [heq] at h ⊢
                exact ih _ h
          · rcases haot : aot_header_loop n [] st3 with ⟨oo, st4⟩
            cases oo with
            | none =>
              have heq : parse_loop (n + 1) st = (none, st4) := by
                simp only [parse_loop]
                rw [if_neg heof, if_neg hnc, if_pos hlb]
                simp only [hct, haot]
              rw [heq]
              have h2 := aot_header_loop_none n [] st3
              rw [haot] at h2
              exact h2 rfl
            | some oA =>
              cases oA with
              | none =>
                have heq : parse_loop (n + 1) st =
                    (none, parser_error st4 "Invalid array of tables declaration.") := by
                  simp only [parse_loop]
                  rw [if_neg heof, if_neg hnc, if_pos hlb]
                  simp only [hct, haot]
                rw [heq]
                exact parser_error_ne _ _
              | some ap =>
                rcases hc1 : consumeTok { st4 with root := (append_table_elem st4.root ap).1, curT := ap ++ [Step.idx (append_table_elem st4.root ap).2] } TokTy.rbracket (some aotCloseMsg) with ⟨flag2, st6⟩
                cases flag2
                · have heq : parse_loop (n + 1) st = (none, st6) := by
                    simp only [parse_loop]
                    rw [if_neg heof, if_neg hnc, if_pos hlb]
                    simp only [hct, haot, hc1]
                  rw [heq]
                  exact consumeTok_false_errs _ _ _ _ hc1
                · rcases hc2 : consumeTok st6 .rbracket (some aotCloseMsg) with ⟨flag3, st7⟩
                  cases flag3
                  · have heq : parse_loop (n + 1) st = (none, st7) := by
                      simp only [parse_loop]
                      rw [if_neg heof, if_neg hnc, if_pos hlb]
                      simp only [hct, haot, hc1, hc2]
                    rw [heq]
                    exact consumeTok_false_errs _ _ _ _ hc2
                  · have heq : parse_loop (n + 1) st = parse_loop n st7 := by
                      simp only [parse_loop]
                      rw [if_neg heof, if_neg hnc, if_pos hlb]
                      simp only [hct, haot, hc1, hc2]
                    rw [heq] at h ⊢
                    exact ih _ h
        · rcases hkv : parse_key_value_f n st.curT st with ⟨ores, st2⟩
          cases ores with
          | none =>
            have heq : parse_loop (n + 1) st = parse_loop n
                (advTok (parser_error st2
                  "Invalid syntax. Expected key-value pair or table definition.")) := by
              simp only [parse_loop]
              rw [if_neg heof, if_neg hnc, if_neg hlb]
              simp only [hkv]
            rw [heq] at h ⊢
            exact ih _ h
          | some u =>
            by_cases hafter : st2.cur.ty ≠ .newline ∧ st2.cur.ty ≠ .eof ∧ st2.cur.ty ≠ .comment
            · have heq : parse_loop (n + 1) st = parse_loop n
                  (advTok (parser_error st2 "Unexpected token after key-value pair.")) := by
                simp only [parse_loop]
                rw [if_neg heof, if_neg hnc, if_neg hlb]
                simp only [hkv]
                rw [if_pos hafter]
              rw [heq] at h ⊢
              exact ih _ h
            · have heq : parse_loop (n + 1) st = parse_loop n st2 := by
                simp only [parse_loop]
                rw [if_neg heof, if_neg hnc, if_neg hlb]
                simp only [hkv]
                rw [if_neg hafter]
              rw [heq] at h ⊢
              exact ih _ h

/-- C2: `cconfig_parse` fails exactly when an error was reported; the
partially built document is never handed back (the result is the NULL
failure value); and the error buffer, when provided with a non-zero
capacity that fits the message, holds exactly the first reported error
formatted as `Error at line L, col C: <message>` — later `parser_error`
calls never change the buffer contents. -/
theorem c2_error_reporting :
    (∀ (input : String) (cap : Nat),
      ((cconfig_parse_full input cap).1 = none ↔ (cconfig_parse_full input cap).2.errs ≠ []) ∧
      (∀ (e : ErrEntry) (tl : List ErrEntry),
        (cconfig_parse_full input cap).2.errs = e :: tl → 0 < cap →
        (fmtE e).data.length ≤ cap - 1 →
        errBufOf cap (cconfig_parse_full input cap).2.errs = some (fmtE e))) ∧
    (∀ (st : PSt) (m : String) (cap : Nat), st.errs ≠ [] →
      errBufOf cap (parser_error st m).errs = errBufOf cap st.errs) ∧
    errBufOf 100 (cconfig_parse_full "= 1" 100).2.errs =
      some "Error at line 0, col 0: Invalid syntax. Expected key-value pair or table definition." := by
  refine ⟨?_, ?_, rfl⟩
  · intro input cap
    constructor
    · rcases hpl : parse_loop ((tokenizeStr input).length + 2)
          (advTok ⟨tokenizeStr input, initTok, initTok, cap, [], [], []⟩) with ⟨ou, st2⟩
      cases ou with
      | none =>
        have heq : cconfig_parse_full input cap = (none, st2) := by
          simp only [cconfig_parse_full, hpl]
        rw [heq]
        have h2 := parse_loop_none ((tokenizeStr input).length + 2)
          (advTok ⟨tokenizeStr input, initTok, initTok, cap, [], [], []⟩)
        rw [hpl] at h2
        exact ⟨fun _ => h2 rfl, fun _ => rfl⟩
      | some u =>
        by_cases hp : pmodeOf st2 = true
        · have heq : cconfig_parse_full input cap = (none, st2) := by
            simp only [cconfig_parse_full, hpl]
            rw [if_pos hp]
          rw [heq]
          have h2 : st2.errs ≠ [] := by
            simpa [pmodeOf] using hp
          exact ⟨fun _ => h2, fun _ => rfl⟩
        · have heq : cconfig_parse_full input cap = (some st2.root, st2) := by
            simp only [cconfig_parse_full, hpl]
            rw [if_neg hp]
          rw [heq]
          have h2 : st2.errs = [] := by
            simpa [pmodeOf] using hp
          constructor
          · intro hh
            exact absurd hh (by simp)
          · intro hh
            exact absurd h2 hh
    · intro e tl herrs hcap hlen
      rw [herrs]
      simp only [errBufOf, List.head?_cons]
      rw [if_neg (by omega)]
      have h3 : List.take (cap - 1) (fmtE e).data = (fmtE e).data := List.take_of_length_le hlen
      simp [h3]
  · intro st m cap hne
    cases herrs : st.errs with
    | nil => exact absurd herrs hne
    | cons a tl =>
      simp [errBufOf, parser_error, herrs]

/-- Witness for C2: on the invalid input `= 1` two errors are
encountered, the buffer holds the first one in full, and a later
`parser_error` call on a state that already has an error leaves the
derived buffer unchanged. -/
theorem c2_witness :
    errBufOf 100 (cconfig_parse_full "= 1" 100).2.errs =
      some (fmtE ⟨0, 0, "Invalid syntax. Expected key-value pair or table definition."⟩) ∧
    (cconfig_parse_full "= 1" 100).2.errs ≠ [] ∧
    errBufOf 37 (parser_error ⟨[], initTok, initTok, 37, [⟨1, 2, "m1"⟩], [], []⟩ "m2").errs =
      errBufOf 37 [⟨1, 2, "m1"⟩] := by
  refine ⟨?_, ?_, ?_⟩
  · exact (c2_error_reporting.1 "= 1" 100).2
      ⟨0, 0, "Invalid syntax. Expected key-value pair or table definition."⟩
      [⟨1, 1, "Invalid syntax. Expected key-value pair or table definition."⟩]
      (by rfl) (by decide) (by decide)
  · exact (c2_error_reporting.1 "= 1" 100).1.mp (by rfl)
  · exact c2_error_reporting.2.1 ⟨[], initTok, initTok, 37, [⟨1, 2, "m1"⟩], [], []⟩ "m2" 37
      (by decide)

/-- Members of a list after an in-place update. -/
theorem mem_modNth (f : α → α) : ∀ (n : Nat) (l : List α) (b : α),
    b ∈ modNth f n l → b ∈ l ∨ ∃ a ∈ l, b = f a := by
  intro n
  induction n with
  | zero =>
    intro l b hb
    cases l with
    | nil => simp [modNth] at hb
    | cons a tl =>
      simp only [modNth, List.mem_cons] at hb
      rcases hb with hb | hb
      · exact Or.inr ⟨a, by simp, hb⟩
      · exact Or.inl (by simp [hb])
  | succ n ih =>
    intro l b hb
    cases l with
    | nil => simp [modNth] at hb
    | cons a tl =>
      simp only [modNth, List.mem_cons] at hb
      rcases hb with hb | hb
      · exact Or.inl (by simp [hb])
      · rcases ih tl b hb with h | ⟨a2, ha2, hba⟩
        · exact Or.inl (by simp [h])
        · exact Or.inr ⟨a2, by simp [ha2], hba⟩

/-- Table inversion for `NoDT`. -/
theorem NoDT_table_inv {ps : Pairs} (h : NoDT (.vTable ps)) : ∀ pr ∈ ps, NoDT pr.2 := by
  cases h with
  | tableV _ h2 => exact h2

/-- Array inversion for `NoDT`. -/
theorem NoDT_arr_inv {es : List Value} (h : NoDT (.vArr es)) : ∀ v ∈ es, NoDT v := by
  cases h with
  | arrV _ h2 => exact h2

/-- An update through a path by a datetime-free-preserving function
keeps the tree datetime-free. -/
theorem modAtV_NoDT (p : VPath) : ∀ (v : Value) (f : Value → Value),
    NoDT v → (∀ w, NoDT w → NoDT (f w)) → NoDT (modAtV v p f) := by
  induction p with
  | nil =>
    intro v f hv hf
    simpa only [modAtV] using hf v hv
  | cons s p2 ih =>
    intro v f hv hf
    cases s with
    | fld i =>
      cases v with
      | vTable ps =>
        simp only [modAtV]
        refine NoDT.tableV _ ?_
        intro pr hpr
        rcases mem_modNth _ i ps pr hpr with h | ⟨a, ha, heq⟩
        · exact NoDT_table_inv hv pr h
        · rw [heq]
          exact ih a.2 f (NoDT_table_inv hv a ha) hf
      | vNone => exact hv
      | vStr s => exact hv
      | vInt i2 => exact hv
      | vFloat q => exact hv
      | vBool b => exact hv
      | vDT y m d => exact hv
      | vArr es => exact hv
    | idx i =>
      cases v with
      | vArr es =>
        simp only [modAtV]
        refine NoDT.arrV _ ?_
        intro w hw
        rcases mem_modNth _ i es w hw with h | ⟨a, ha, heq⟩
        · exact NoDT_arr_inv hv w h
        · rw [heq]
          exact ih a f (NoDT_arr_inv hv a ha) hf
      | vNone => exact hv
      | vStr s => exact hv
      | vInt i2 => exact hv
      | vFloat q => exact hv
      | vBool b => exact hv
      | vDT y m d => exact hv
      | vTable ps => exact hv

/-- `modRoot` by a datetime-free-preserving function keeps the document
datetime-free. -/
theorem modRoot_NoDT (root : Pairs) (p : VPath) (f : Value → Value)
    (h : NoDTps root) (hf : ∀ w, NoDT w → NoDT (f w)) : NoDTps (modRoot root p f) := by
  have h0 : NoDT (.vTable root) := NoDT.tableV _ h
  have h2 := modAtV_NoDT p (.vTable root) f h0 hf
  unfold modRoot
  cases hm : modAtV (.vTable root) p f with
  | vTable ps =>
    rw [hm] at h2
    exact NoDT_table_inv h2
  | vNone => exact h
  | vStr s => exact h
  | vInt i => exact h
  | vFloat q => exact h
  | vBool b => exact h
  | vDT y m d => exact h
  | vArr es => exact h

/-- Appending a datetime-free pair into a table keeps the document
datetime-free. -/
theorem appendPairAt_NoDT (root : Pairs) (p : VPath) (k : String) (v : Value)
    (h : NoDTps root) (hv : NoDT v) : NoDTps (appendPairAt root p k v) := by
  refine modRoot_NoDT root p _ h ?_
  intro w hw
  cases w with
  | vTable ps =>
    refine NoDT.tableV _ ?_
    intro pr hpr
    rcases List.mem_append.mp hpr with h2 | h2
    · exact NoDT_table_inv hw pr h2
    · rw [List.mem_singleton.mp h2]
      exact hv
  | vNone => exact hw
  | vStr s => exact hw
  | vInt i => exact hw
  | vFloat q => exact hw
  | vBool b => exact hw
  | vDT y m d => exact hw
  | vArr es => exact hw

/-- `find_or_create_table` keeps the document datetime-free. -/
theorem foct_NoDT (root : Pairs) (p : VPath) (k : String) (h : NoDTps root) :
    NoDTps (find_or_create_table root p k).1 := by
  unfold find_or_create_table
  cases hg : getTblAt root p with
  | none =>
    simp only [hg]
    exact h
  | some ps =>
    cases hf : findPairIdx ps k with
    | none =>
      simp only [hg, hf]
      refine modRoot_NoDT root p _ h ?_
      intro w hw
      cases w with
      | vTable ps2 =>
        refine NoDT.tableV _ ?_
        intro pr hpr
        rcases List.mem_append.mp hpr with h2 | h2
        · exact NoDT_table_inv hw pr h2
        · rw [List.mem_singleton.mp h2]
          exact NoDT.tableV _ (by simp)
      | vNone => exact hw
      | vStr s => exact hw
      | vInt i => exact hw
      | vFloat q => exact hw
      | vBool b => exact hw
      | vDT y m d => exact hw
      | vArr es => exact hw
    | some pr =>
      rcases pr with ⟨i, w⟩
      cases w <;> simp only [hg, hf] <;> exact h

/-- `find_or_create_array_of_tables` keeps the document datetime-free. -/
theorem foca_NoDT (st : PSt) (p : VPath) (k : String) (h : NoDTps st.root) :
    NoDTps (find_or_create_array_of_tables st p k).1.root := by
  unfold find_or_create_array_of_tables
  cases hg : getTblAt st.root p with
  | none =>
    simp only [hg]
    exact h
  | some ps =>
    cases hf : findPairIdx ps k with
    | none =>
      simp only [hg, hf]
      refine modRoot_NoDT st.root p _ h ?_
      intro w hw
      cases w with
      | vTable ps2 =>
        refine NoDT.tableV _ ?_
        intro pr hpr
        rcases List.mem_append.mp hpr with h2 | h2
        · exact NoDT_table_inv hw pr h2
        · rw [List.mem_singleton.mp h2]
          exact NoDT.arrV _ (by simp)
      | vNone => exact hw
      | vStr s => exact hw
      | vInt i => exact hw
      | vFloat q => exact hw
      | vBool b => exact hw
      | vDT y m d => exact hw
      | vArr es => exact hw
    | some pr =>
      rcases pr with ⟨i, w⟩
      cases w <;> simp only [hg, hf] <;> exact h

/-- Appending a fresh empty table to a target array keeps the document
datetime-free. -/
theorem append_table_elem_NoDT (root : Pairs) (ap : VPath) (h : NoDTps root) :
    NoDTps (append_table_elem root ap).1 := by
  unfold append_table_elem
  cases hg : getAtV (.vTable root) ap with
  | none =>
    simp only [hg]
    exact h
  | some w =>
    cases w with
    | vArr es =>
      simp only [hg]
      refine modRoot_NoDT root ap _ h ?_
      intro w2 hw2
      cases w2 with
      | vArr es2 =>
        refine NoDT.arrV _ ?_
        intro v hv
        rcases List.mem_append.mp hv with h2 | h2
        · exact NoDT_arr_inv hw2 v h2
        · rw [List.mem_singleton.mp h2]
          exact NoDT.tableV _ (by simp)
      | vNone => exact hw2
      | vStr s => exact hw2
      | vInt i => exact hw2
      | vFloat q => exact hw2
      | vBool b => exact hw2
      | vDT y m d => exact hw2
      | vTable ps => exact hw2
    | vNone => simp only [hg]; exact h
    | vStr s => simp only [hg]; exact h
    | vInt i => simp only [hg]; exact h
    | vFloat q => simp only [hg]; exact h
    | vBool b => simp only [hg]; exact h
    | vDT y m d => simp only [hg]; exact h
    | vTable ps => simp only [hg]; exact h

/-- `parser_error` only touches the error log. -/
theorem parser_error_root (st : PSt) (m : String) : (parser_error st m).root = st.root := rfl

/-- `popTok` does not touch the document root. -/
theorem popTok_root (st : PSt) : (popTok st).root = st.root := by
  unfold popTok
  cases h : st.rest with
  | nil => rfl
  | cons t ts => rfl

/-- `popTokKeep` does not touch the document root. -/
theorem popTokKeep_root (st : PSt) : (popTokKeep st).root = st.root := by
  unfold popTokKeep
  cases h : st.rest with
  | nil => rfl
  | cons t ts => rfl

/-- The error-token skip does not touch the document root. -/
theorem skipErrsF_root (fuel : Nat) : ∀ st : PSt, (skipErrsF fuel st).root = st.root := by
  induction fuel with
  | zero => intro st; rfl
  | succ n ih =>
    intro st
    unfold skipErrsF
    by_cases h : st.cur.ty = TokTy.error
    · rw [if_pos h, ih, popTokKeep_root, parser_error_root]
    · rw [if_neg h]

/-- `advance_token` does not touch the document root. -/
theorem advTok_root (st : PSt) : (advTok st).root = st.root := by
  unfold advTok
  rw [skipErrsF_root, popTok_root]

/-- `consume_token` does not touch the document root. -/
theorem consumeTok_root (st : PSt) (ty : TokTy) (msg : Option String) :
    (consumeTok st ty msg).2.root = st.root := by
  unfold consumeTok
  by_cases h : st.cur.ty = ty
  · rw [if_pos h]
    exact advTok_root st
  · rw [if_neg h]
    cases msg with
    | none => rfl
    | some m => exact parser_error_root st m

/-- The fuelled comment/newline skip does not touch the document root. -/
theorem skipCNF_root (fuel : Nat) : ∀ st : PSt, (skipCNF fuel st).root = st.root := by
  induction fuel with
  | zero => intro st; rfl
  | succ n ih =>
    intro st
    unfold skipCNF
    by_cases h : st.cur.ty = TokTy.comment ∨ st.cur.ty = TokTy.newline
    · rw [if_pos h, ih, advTok_root]
    · rw [if_neg h]

/-- The comment/newline skip does not touch the document root. -/
theorem skipCN_root (st : PSt) : (skipCN st).root = st.root := skipCNF_root _ st

/-- The after-element step of the array loop does not touch the
document root. -/
theorem array_after_elem_root (st : PSt) : (array_after_elem st).2.root = st.root := by
  unfold array_after_elem
  by_cases h : st.cur.ty = TokTy.rbracket
  · rw [if_pos h]
  · rw [if_neg h]
    rcases hc : consumeTok st .comma (some arrSepMsg) with ⟨b, st2⟩
    have hr : st2.root = st.root := by
      have := consumeTok_root st .comma (some arrSepMsg)
      rw [hc] at this
      exact this
    cases b with
    | false => exact hr
    | true =>
      dsimp only
      by_cases h2 : (skipCN st2).cur.ty = TokTy.rbracket
      · rw [if_pos h2, parser_error_root, skipCN_root, hr]
      · rw [if_neg h2, skipCN_root, hr]

/-- `parse_value` (with its array loop) does not touch the document
root: values are built aside and only `parse_key_value` installs them. -/
theorem parse_value_f_root (fuel : Nat) : ∀ (inArr : Bool) (acc : List Value) (st : PSt),
    (parse_value_f fuel inArr acc st).2.root = st.root := by
  induction fuel with
  | zero =>
    intro inArr acc st
    exact parser_error_root st "Out of memory."
  | succ n ih =>
    intro inArr acc st
    cases inArr with
    | false =>
      cases hty : st.cur.ty with
      | string => simp only [parse_value_f, hty, advTok_root]
      | integer => simp only [parse_value_f, hty, advTok_root]
      | float => simp only [parse_value_f, hty, advTok_root]
      | boolean => simp only [parse_value_f, hty, advTok_root]
      | lbracket =>
        simp only [parse_value_f, hty]
        by_cases h2 : (advTok st).cur.ty = TokTy.rbracket
        · rw [if_pos h2]
          simp only [advTok_root]
        · rw [if_neg h2]
          rw [ih true [] (advTok st), advTok_root]
      | datetime => simp only [parse_value_f, hty]
      | ident => simp only [parse_value_f, hty]
      | equal => simp only [parse_value_f, hty]
      | dot => simp only [parse_value_f, hty]
      | comma => simp only [parse_value_f, hty]
      | rbracket => simp only [parse_value_f, hty]
      | newline => simp only [parse_value_f, hty]
      | comment => simp only [parse_value_f, hty]
      | error => simp only [parse_value_f, hty]
      | eof => simp only [parse_value_f, hty]
      | lbrace => simp only [parse_value_f, hty]
      | rbrace => simp only [parse_value_f, hty]
    | true =>
      by_cases hend : st.cur.ty = TokTy.rbracket ∨ st.cur.ty = TokTy.eof
      · simp only [parse_value_f]
        rw [if_pos hend]
        rcases hc : consumeTok st .rbracket (some arrCloseMsg) with ⟨b, st2⟩
        have hr : st2.root = st.root := by
          have := consumeTok_root st .rbracket (some arrCloseMsg)
          rw [hc] at this
          exact this
        cases b with
        | false => exact hr
        | true => exact hr
      · simp only [parse_value_f]
        rw [if_neg hend]
        rcases hp : parse_value_f n false [] st with ⟨ov, st2⟩
        have hr2 : st2.root = st.root := by
          have := ih false [] st
          rw [hp] at this
          exact this
        cases ov with
        | none => exact hr2
        | some e =>
          dsimp only
          rcases ha : array_after_elem st2 with ⟨step, st3⟩
          have hr3 : st3.root = st2.root := by
            have := array_after_elem_root st2
            rw [ha] at this
            exact this
          cases step with
          | closed =>
            simp only [advTok_root]
            rw [hr3, hr2]
          | failed => rw [hr3, hr2]
          | next => rw [ih true (cconfig_array_add_value acc e) st3, hr3, hr2]

/-- Every value `parse_value` returns is datetime-free: no case of its
dispatch constructs a datetime value (the datetime token falls through
to the silent-NULL default case). -/
theorem parse_value_f_NoDT (fuel : Nat) : ∀ (inArr : Bool) (acc : List Value) (st : PSt)
    (v : Value), (∀ w ∈ acc, NoDT w) → (parse_value_f fuel inArr acc st).1 = some v →
    NoDT v := by
  induction fuel with
  | zero =>
    intro inArr acc st v _ h
    simp [parse_value_f] at h
  | succ n ih =>
    intro inArr acc st v hacc h
    cases inArr with
    | false =>
      cases hty : st.cur.ty with
      | string =>
        simp only [parse_value_f, hty] at h
        rw [← Option.some.inj h]
        exact NoDT.strV _
      | integer =>
        simp only [parse_value_f, hty] at h
        rw [← Option.some.inj h]
        exact NoDT.intV _
      | float =>
        simp only [parse_value_f, hty] at h
        rw [← Option.some.inj h]
        exact NoDT.floatV _
      | boolean =>
        simp only [parse_value_f, hty] at h
        rw [← Option.some.inj h]
        exact NoDT.boolV _
      | lbracket =>
        simp only [parse_value_f, hty] at h
        by_cases h2 : (advTok st).cur.ty = TokTy.rbracket
        · rw [if_pos h2] at h
          rw [← Option.some.inj h]
          exact NoDT.arrV [] (by simp)
        · rw [if_neg h2] at h
          exact ih true [] (advTok st) v (by simp) h
      | datetime => simp [parse_value_f, hty] at h
      | ident => simp [parse_value_f, hty] at h
      | equal => simp [parse_value_f, hty] at h
      | dot => simp [parse_value_f, hty] at h
      | comma => simp [parse_value_f, hty] at h
      | rbracket => simp [parse_value_f, hty] at h
      | newline => simp [parse_value_f, hty] at h
      | comment => simp [parse_value_f, hty] at h
      | error => simp [parse_value_f, hty] at h
      | eof => simp [parse_value_f, hty] at h
      | lbrace => simp [parse_value_f, hty] at h
      | rbrace => simp [parse_value_f, hty] at h
    | true =>
      by_cases hend : st.cur.ty = TokTy.rbracket ∨ st.cur.ty = TokTy.eof
      · simp only [parse_value_f] at h
        rw [if_pos hend] at h
        rcases hc : consumeTok st .rbracket (some arrCloseMsg) with ⟨b, st2⟩
        rw [hc] at h
        cases b with
        | false => simp at h
        | true =>
          simp only at h
          rw [← Option.some.inj h]
          exact NoDT.arrV _ hacc
      · simp only [parse_value_f] at h
        rw [if_neg hend] at h
        rcases hp : parse_value_f n false [] st with ⟨ov, st2⟩
        rw [hp] at h
        cases ov with
        | none => simp at h
        | some e =>
          have he : NoDT e := by
            refine ih false [] st e (by simp) ?_
            rw [hp]
          have hall : ∀ w ∈ cconfig_array_add_value acc e, NoDT w := by
            intro w hw
            rcases List.mem_append.mp hw with h2 | h2
            · exact hacc w h2
            · rw [List.mem_singleton.mp h2]
              exact he
          simp only at h
          rcases ha : array_after_elem st2 with ⟨step, st3⟩
          rw [ha] at h
          cases step with
          | closed =>
            simp only at h
            rw [← Option.some.inj h]
            exact NoDT.arrV _ hall
          | failed => simp at h
          | next => exact ih true (cconfig_array_add_value acc e) st3 v hall h

/-- `parse_key_value` keeps the document datetime-free: the only root
updates are fresh empty tables for dotted segments and the parsed value
itself, which `parse_value` never makes a datetime. -/
theorem parse_key_value_f_NoDT (fuel : Nat) : ∀ (tp : VPath) (st : PSt),
    NoDTps st.root → NoDTps (parse_key_value_f fuel tp st).2.root := by
  induction fuel with
  | zero =>
    intro tp st h
    simp only [parse_key_value_f]
    rw [parser_error_root]
    exact h
  | succ n ih =>
    intro tp st h
    by_cases hid : st.cur.ty = TokTy.ident
    · simp only [parse_key_value_f]
      rw [if_pos hid]
      by_cases hdot : (advTok st).cur.ty = TokTy.dot
      · rw [if_pos hdot]
        rcases hf : find_or_create_table (advTok st).root tp st.cur.text with ⟨root2, o⟩
        have hroot2 : NoDTps root2 := by
          have h2 := foct_NoDT (advTok st).root tp st.cur.text (by rw [advTok_root]; exact h)
          rw [hf] at h2
          exact h2
        cases o with
        | none =>
          dsimp only
          rw [parser_error_root]
          exact hroot2
        | some tp2 =>
          dsimp only
          exact ih tp2 _ (by rw [advTok_root]; exact hroot2)
      · rw [if_neg hdot]
        by_cases heq2 : (advTok st).cur.ty = TokTy.equal
        · rw [if_pos heq2]
          rcases hp : parse_value n (advTok (advTok st)) with ⟨ov, st4⟩
          have hr4 : st4.root = st.root := by
            have h2 := parse_value_f_root n false [] (advTok (advTok st))
            rw [show parse_value_f n false [] (advTok (advTok st)) =
              parse_value n (advTok (advTok st)) from rfl, hp] at h2
            rw [h2, advTok_root, advTok_root]
          cases ov with
          | none =>
            dsimp only
            rw [hr4]
            exact h
          | some v =>
            dsimp only
            refine appendPairAt_NoDT st4.root tp st.cur.text v (by rw [hr4]; exact h) ?_
            refine parse_value_f_NoDT n false [] (advTok (advTok st)) v (by simp) ?_
            rw [show parse_value_f n false [] (advTok (advTok st)) =
              parse_value n (advTok (advTok st)) from rfl, hp]
        · rw [if_neg heq2]
          exact ih tp (advTok st) (by rw [advTok_root]; exact h)
    · simp only [parse_key_value_f]
      rw [if_neg hid]
      exact h

/-- The table-header walk keeps the document datetime-free. -/
theorem table_header_loop_NoDT (fuel : Nat) : ∀ (tp : VPath) (st : PSt),
    NoDTps st.root → NoDTps (table_header_loop fuel tp st).2.root := by
  induction fuel with
  | zero =>
    intro tp st h
    simp only [table_header_loop]
    rw [parser_error_root]
    exact h
  | succ n ih =>
    intro tp st h
    by_cases hid : st.cur.ty = TokTy.ident
    · simp only [table_header_loop]
      rw [if_pos hid]
      rcases hf : find_or_create_table st.root tp st.cur.text with ⟨root2, o⟩
      have hroot2 : NoDTps root2 := by
        have h2 := foct_NoDT st.root tp st.cur.text h
        rw [hf] at h2
        exact h2
      cases o with
      | none =>
        dsimp only
        rw [parser_error_root]
        exact hroot2
      | some tp2 =>
        dsimp only
        by_cases hdot : (advTok { st with root := root2 }).cur.ty = TokTy.dot
        · rw [if_pos hdot]
          exact ih tp2 _ (by rw [advTok_root, advTok_root]; exact hroot2)
        · rw [if_neg hdot]
          rw [advTok_root]
          exact hroot2
    · simp only [table_header_loop]
      rw [if_neg hid]
      exact h

/-- The array-of-tables header walk keeps the document datetime-free. -/
theorem aot_header_loop_NoDT (fuel : Nat) : ∀ (tp : VPath) (st : PSt),
    NoDTps st.root → NoDTps (aot_header_loop fuel tp st).2.root := by
  induction fuel with
  | zero =>
    intro tp st h
    simp only [aot_header_loop]
    rw [parser_error_root]
    exact h
  | succ n ih =>
    intro tp st h
    by_cases hid : st.cur.ty = TokTy.ident
    · simp only [aot_header_loop]
      rw [if_pos hid]
      by_cases hdot : (advTok st).cur.ty = TokTy.dot
      · rw [if_pos hdot]
        rcases hf : find_or_create_table (advTok st).root tp st.cur.text with ⟨root2, o⟩
        have hroot2 : NoDTps root2 := by
          have h2 := foct_NoDT (advTok st).root tp st.cur.text (by rw [advTok_root]; exact h)
          rw [hf] at h2
          exact h2
        cases o with
        | none =>
          dsimp only
          rw [parser_error_root]
          exact hroot2
        | some p2 =>
          dsimp only
          exact ih p2 _ (by rw [advTok_root]; exact hroot2)
      · rw [if_neg hdot]
        rcases hf : find_or_create_array_of_tables (advTok st) tp st.cur.text with ⟨st3, oA⟩
        have h2 := foca_NoDT (advTok st) tp st.cur.text (by rw [advTok_root]; exact h)
        rw [hf] at h2
        exact h2
    · simp only [aot_header_loop]
      rw [if_neg hid]
      exact h

/-- The statement loop keeps the document datetime-free. -/
theorem parse_loop_NoDT (fuel : Nat) : ∀ st : PSt,
    NoDTps st.root → NoDTps (parse_loop fuel st).2.root := by
  induction fuel with
  | zero =>
    intro st h
    simp only [parse_loop]
    rw [parser_error_root]
    exact h
  | succ n ih =>
    intro st h
    by_cases heof : st.cur.ty = TokTy.eof
    · simp only [parse_loop]
      rw [if_pos heof]
      exact h
    · by_cases hnc : st.cur.ty = TokTy.newline ∨ st.cur.ty = TokTy.comment
      · simp only [parse_loop]
        rw [if_neg heof, if_pos hnc]
        exact ih _ (by rw [advTok_root]; exact h)
      · by_cases hlb : st.cur.ty = TokTy.lbracket
        · simp only [parse_loop]
          rw [if_neg heof, if_neg hnc, if_pos hlb]
          rcases hct : consumeTok (advTok st) .lbracket none with ⟨flag, st3⟩
          have hr3 : st3.root = st.root := by
            have h2 := consumeTok_root (advTok st) .lbracket none
            rw [hct] at h2
            rw [h2, advTok_root]
          cases flag with
          | false =>
            dsimp only
            rcases hthl : table_header_loop n [] st3 with ⟨otp, st4⟩
            have h4 : NoDTps st4.root := by
              have h2 := table_header_loop_NoDT n [] st3 (by rw [hr3]; exact h)
              rw [hthl] at h2
              exact h2
            cases otp with
            | none => exact h4
            | some tp =>
              dsimp only
              rcases hcr : consumeTok { st4 with curT := tp } .rbracket
                  (some "Expected \x27]\x27 after table name.") with ⟨flag2, st6⟩
              have h6 : st6.root = st4.root := by
                have h2 := consumeTok_root { st4 with curT := tp } .rbracket
                  (some "Expected \x27]\x27 after table name.")
                rw [hcr] at h2
                exact h2
              cases flag2 with
              | false =>
                dsimp only
                rw [h6]
                exact h4
              | true => exact ih st6 (by rw [h6]; exact h4)
          | true =>
            dsimp only
            rcases haot : aot_header_loop n [] st3 with ⟨oo, st4⟩
            have h4 : NoDTps st4.root := by
              have h2 := aot_header_loop_NoDT n [] st3 (by rw [hr3]; exact h)
              rw [haot] at h2
              exact h2
            cases oo with
            | none => exact h4
            | some oA =>
              cases oA with
              | none =>
                dsimp only
                rw [parser_error_root]
                exact h4
              | some ap =>
                dsimp only
                have h5 : NoDTps (append_table_elem st4.root ap).1 :=
                  append_table_elem_NoDT st4.root ap h4
                rcases hc1 : consumeTok { st4 with root := (append_table_elem st4.root ap).1, curT := ap ++ [Step.idx (append_table_elem st4.root ap).2] } .rbracket (some aotCloseMsg) with ⟨flag2, st6⟩
                have h6 : st6.root = (append_table_elem st4.root ap).1 := by
                  have h2 := consumeTok_root { st4 with root := (append_table_elem st4.root ap).1, curT := ap ++ [Step.idx (append_table_elem st4.root ap).2] } .rbracket (some aotCloseMsg)
                  rw [hc1] at h2
                  exact h2
                cases flag2 with
                | false =>
                  dsimp only
                  rw [h6]
                  exact h5
                | true =>
                  dsimp only
                  rcases hc2 : consumeTok st6 .rbracket (some aotCloseMsg) with ⟨flag3, st7⟩
                  have h7 : st7.root = st6.root := by
                    have h2 := consumeTok_root st6 .rbracket (some aotCloseMsg)
                    rw [hc2] at h2
                    exact h2
                  cases flag3 with
                  | false =>
                    dsimp only
                    rw [h7, h6]
                    exact h5
                  | true => exact ih st7 (by rw [h7, h6]; exact h5)
        · simp only [parse_loop]
          rw [if_neg heof, if_neg hnc, if_neg hlb]
          rcases hkv : parse_key_value_f n st.curT st with ⟨ores, st2⟩
          have h2 : NoDTps st2.root := by
            have h3 := parse_key_value_f_NoDT n st.curT st h
            rw [hkv] at h3
            exact h3
          cases ores with
          | none =>
            dsimp only
            exact ih _ (by rw [advTok_root, parser_error_root]; exact h2)
          | some u =>
            dsimp only
            by_cases hafter : st2.cur.ty ≠ TokTy.newline ∧ st2.cur.ty ≠ TokTy.eof ∧
              st2.cur.ty ≠ TokTy.comment
            · rw [if_pos hafter]
              exact ih _ (by rw [advTok_root, parser_error_root]; exact h2)
            · rw [if_neg hafter]
              exact ih _ h2

/-- C10: no successfully parsed document contains a datetime-typed
value, even though the value model has a datetime variant:
`parse_value` dispatches only on string, integer, float, boolean and
`[` tokens, so on a datetime token it yields no value and leaves the
state unchanged, the statement then counts as a syntax error, and in
particular `d = 2023-01-15` fails to parse as a whole. -/
theorem c10_no_datetime_values :
    (∀ (input : String) (cap : Nat) (doc : Pairs),
      cconfig_parse input cap = some doc → NoDTps doc) ∧
    (∀ (fuel : Nat) (st : PSt), st.cur.ty = TokTy.datetime →
      parse_value (fuel + 1) st = (none, st)) ∧
    cconfig_parse "d = 2023-01-15" 64 = none := by
  refine ⟨?_, ?_, rfl⟩
  · intro input cap doc h
    rcases hpl : parse_loop ((tokenizeStr input).length + 2)
        (advTok ⟨tokenizeStr input, initTok, initTok, cap, [], [], []⟩) with ⟨ou, st2⟩
    have h2 : NoDTps st2.root := by
      have h3 := parse_loop_NoDT ((tokenizeStr input).length + 2)
        (advTok ⟨tokenizeStr input, initTok, initTok, cap, [], [], []⟩)
        (by rw [advTok_root]; intro pr hpr; exact absurd hpr (List.not_mem_nil pr))
      rw [hpl] at h3
      exact h3
    cases ou with
    | none =>
      have heq : cconfig_parse input cap = none := by
        simp only [cconfig_parse, cconfig_parse_full, hpl]
      rw [heq] at h
      exact Option.noConfusion h
    | some u =>
      by_cases hp : pmodeOf st2 = true
      · have heq : cconfig_parse input cap = none := by
          simp only [cconfig_parse, cconfig_parse_full, hpl]
          rw [if_pos hp]
        rw [heq] at h
        exact Option.noConfusion h
      · have heq : cconfig_parse input cap = some st2.root := by
          simp only [cconfig_parse, cconfig_parse_full, hpl]
          rw [if_neg hp]
        rw [heq] at h
        rw [← Option.some.inj h]
        exact h2
  · intro fuel st h
    unfold parse_value parse_value_f
    rw [h]

/-- Witness for C10 at concrete inputs: `a = 1` parses to a document
that the theorem certifies datetime-free, and on a concrete parser
state whose current token is the datetime `2023-01-15` the value
dispatch yields no value and leaves the state unchanged. -/
theorem c10_witness :
    cconfig_parse "a = 1" 64 = some [("a", Value.vInt 1)] ∧
    NoDTps [("a", Value.vInt 1)] ∧
    parse_value (4 + 1) ⟨[], ⟨TokTy.datetime, "2023-01-15", 1, 5⟩, initTok, 64, [], [], []⟩ =
      (none, ⟨[], ⟨TokTy.datetime, "2023-01-15", 1, 5⟩, initTok, 64, [], [], []⟩) :=
  ⟨rfl, c10_no_datetime_values.1 "a = 1" 64 [("a", Value.vInt 1)] rfl,
   c10_no_datetime_values.2.1 4 ⟨[], ⟨TokTy.datetime, "2023-01-15", 1, 5⟩, initTok, 64, [], [], []⟩ rfl⟩
